import Mathlib

/-! The TibiaData extractors: highscores and creatures overview.

A shallow embedding of `src/TibiaHighscores.go` and
`src/TibiaCreaturesOverviewV3.go`.

The two Go functions call into libraries that are not part of the repository
sources at hand (goquery, regexp, x/text) and into helpers of the repository
that live in other files (`TibiaDataStringToInteger`,
`TibiaDataSanitizeEscapedString`, `TibiaDataDatetime`, the `validation`
package).  These are collected in the record `Env`; every general theorem
holds for an arbitrary `Env`.  Go run-time aborts (an index out of range, a
`log.Fatal`) are explicit: the embedded functions return `Except Abort _`.
The wall clock read by the timestamp helper is an explicit argument `now`.
-/

namespace TibiaData

/-! ## Go values -/

/-- A Go `error` value, as far as the two functions can produce one. -/
inductive GoError where
  /-- An error built by `fmt.Errorf`, with its formatted message. -/
  | errorf (msg : String)
  /-- The package-level value `validation.ErrorHighscorePageTooBig`. -/
  | ErrorHighscorePageTooBig
  deriving DecidableEq, Repr

/-- The ways a call can end without returning to its caller. -/
inductive Abort where
  /-- The run-time panic "index out of range" of a slice index expression. -/
  | indexOutOfRange
  /-- The call `log.Fatal(err)`, which ends the process. -/
  | logFatal (msg : String)
  deriving DecidableEq, Repr

/-- The slice index expression `xs[i]`: it panics when `i` is out of range. -/
def index {α : Type} (xs : List α) (i : Nat) : Except Abort α :=
  match xs.get? i with
  | some x => .ok x
  | none => .error Abort.indexOutOfRange

/-- The expression `subma[i][j]` on the result of `FindAllStringSubmatch`. -/
def capture (subma : List (List String)) (i j : Nat) : Except Abort String :=
  match index subma i with
  | .error a => .error a
  | .ok m => index m j

/-- The Go builtin `len` on a string: its length in bytes. -/
def len (s : String) : Nat := s.utf8ByteSize

/-- Counting loop of `strings.Count` for a non-empty `substr`: `skip` is the
number of characters still covered by the occurrence found last. -/
def countFrom (substr : List Char) : Nat → List Char → Nat
  | _, [] => 0
  | skip + 1, _ :: cs => countFrom substr skip cs
  | 0, c :: cs =>
    if substr.isPrefixOf (c :: cs) then 1 + countFrom substr (substr.length - 1) cs
    else countFrom substr 0 cs

/-- The library function `strings.Count(s, substr)`: the number of
non-overlapping instances of `substr` in `s`, and one more than the number of
characters of `s` when `substr` is empty. -/
def stringsCount (s substr : String) : Nat :=
  if substr.data = [] then s.data.length + 1 else countFrom substr.data 0 s.data

/-- The type `validation.HighscoreCategory`, an integer-coded enumeration. -/
abbrev HighscoreCategory := Int

/-! ## The collaborators -/

/-- The libraries and repository helpers the two functions call. -/
structure Env where
  /-- A parsed document (`*goquery.Document`). -/
  Doc : Type
  /-- An element of a parsed document (`*html.Node`). -/
  Node : Type
  /-- The call `goquery.NewDocumentFromReader(strings.NewReader(s))`. -/
  NewDocumentFromReader : String → Except String Doc
  /-- The call `doc.Find(selector)`: the matching elements in document order. -/
  Find : Doc → String → List Node
  /-- The element siblings that follow a node, in document order. -/
  nextSiblings : Node → List Node
  /-- The inner markup of one element, as `Selection.Html` renders it. -/
  innerHtml : Node → Except String String
  /-- The call `regexp.MustCompile(pattern).FindAllStringSubmatch(s, n)`. -/
  FindAllStringSubmatch : String → String → Int → List (List String)
  /-- The helper `TibiaDataStringToInteger`. -/
  TibiaDataStringToInteger : String → Int
  /-- The helper `TibiaDataSanitizeEscapedString`. -/
  TibiaDataSanitizeEscapedString : String → String
  /-- The constant `validation.HighScoreLoyaltypoints`. -/
  HighScoreLoyaltypoints : HighscoreCategory
  /-- The first result of the method `category.String()`. -/
  categoryString : HighscoreCategory → String
  /-- The call `cases.Title(language.English).String(s)`. -/
  casesTitle : String → String
  /-- The package variable `TibiaDataAPIDetails`. -/
  TibiaDataAPIDetails : String
  /-- The package variable `TibiadataAPIversion`. -/
  TibiadataAPIversion : Int
  /-- The helper `TibiaDataDatetime`, given the clock reading and its argument. -/
  TibiaDataDatetime : Nat → String → String
  /-- The helper `TibiadataDatetimeV3`, given the clock reading and its argument. -/
  TibiadataDatetimeV3 : Nat → String → String

/-- A goquery selection: a list of nodes in document order. -/
abbrev Selection (E : Env) := List E.Node

/-- The method `Selection.First`. -/
def First {E : Env} (s : Selection E) : Selection E := s.take 1

/-- The method `Selection.NextAll`, for a selection of at most one node (the
only use in the sources is on the result of `First`). -/
def NextAll {E : Env} (s : Selection E) : Selection E :=
  match s with
  | [] => []
  | n :: _ => E.nextSiblings n

/-- The method `Selection.Html`: the inner markup of the first node of the
selection, and the empty string without error for an empty selection. -/
def Html {E : Env} (s : Selection E) : Except String String :=
  match s with
  | [] => .ok ""
  | n :: _ => E.innerHtml n

/-- The method `Selection.EachWithBreak`: the callback runs on each node in
order until it returns `false`; `σ` holds the variables it captures. -/
def EachWithBreak {E : Env} {σ : Type} (f : σ → Selection E → Except Abort (σ × Bool)) :
    Selection E → σ → Except Abort σ
  | [], v => .ok v
  | n :: rest, v =>
    match f v [n] with
    | .error a => .error a
    | .ok (v2, true) => EachWithBreak f rest v2
    | .ok (v2, false) => .ok v2

/-- The method `Selection.Each`: the callback runs on each node in order. -/
def Each {E : Env} {σ : Type} (f : σ → Selection E → Except Abort σ) :
    Selection E → σ → Except Abort σ
  | [], v => .ok v
  | n :: rest, v =>
    match f v [n] with
    | .error a => .error a
    | .ok v2 => Each f rest v2

/-! ## Highscores (`TibiaHighscores.go`) -/

/-- Child of Highscores. -/
structure Highscore where
  Rank : Int
  Name : String
  Vocation : String
  World : String
  Level : Int
  Value : Int
  Title : String
  deriving DecidableEq, Repr

/-- Child of Highscore. -/
structure HighscorePage where
  CurrentPage : Int
  TotalPages : Int
  TotalHighscores : Int
  deriving DecidableEq, Repr

/-- Child of JSONData. -/
structure Highscores where
  World : String
  Category : String
  Vocation : String
  HighscoreAge : Int
  HighscoreList : List Highscore
  HighscorePage : HighscorePage
  deriving DecidableEq, Repr

/-- The `Status` part of the envelope. -/
structure Status where
  HTTPCode : Int
  deriving DecidableEq, Repr

/-- The metadata envelope built by `TibiaHighscoresImpl`. -/
structure Information where
  APIDetails : String
  Timestamp : String
  Status : Status
  deriving DecidableEq, Repr

/-- The base includes two levels: Highscores and Information. -/
structure HighscoresResponse where
  Highscores : Highscores
  Information : Information
  deriving DecidableEq, Repr

def HighscoresAgeRegex : String :=
  ".*<div class=\"Text\">Highscores.*Last Update: ([0-9]+) minutes ago.*"

def HighscoresPageRegex : String :=
  ".*<b>.*Pages:\\ ?(.*)<\\/b>.*<b>.*Results:\\ ?([0-9,]+)<\\/b>.*"

def SevenColumnRegex : String :=
  "<td>(.*)<\\/td><td.*\">(.*)<\\/a><\\/td><td.*>(.*)<\\/td><td.*>(.*)<\\/td><td>(.*)<\\/td><td.*>(.*)<\\/td><td.*>(.*)<\\/td>"

def SixColumnRegex : String :=
  "<td>(.*)<\\/td><td.*\">(.*)<\\/a><\\/td><td.*\">(.*)<\\/td><td>(.*)<\\/td><td.*>(.*)<\\/td><td.*>(.*)<\\/td>"

/-- The constant `http.StatusOK`. -/
def StatusOK : Int := 200

/-- Lines 70-74: the age of the data, zero when the pattern does not match. -/
def getHighscoreAge (E : Env) (BoxContentHTML : String) : Except Abort Int :=
  let subma1 := E.FindAllStringSubmatch HighscoresAgeRegex BoxContentHTML 1
  if subma1.length > 0 then
    match capture subma1 0 1 with
    | .error a => .error a
    | .ok c => .ok (E.TibiaDataStringToInteger c)
  else .ok 0

/-- Lines 76-81: `(HighscoreTotalPages, HighscoreTotalHighscores)`, both zero
when the pattern does not match. -/
def getHighscorePages (E : Env) (BoxContentHTML : String) : Except Abort (Int × Int) :=
  let subma1 := E.FindAllStringSubmatch HighscoresPageRegex BoxContentHTML 1
  if subma1.length > 0 then
    match capture subma1 0 1 with
    | .error a => .error a
    | .ok pages =>
      match capture subma1 0 2 with
      | .error a => .error a
      | .ok results =>
        .ok ((stringsCount pages "class=\"PageLink" : Nat), E.TibiaDataStringToInteger results)
  else .ok (0, 0)

/-- The variables of lines 64-68 and 87 that the row callback reads and writes;
they are declared once, outside the loop. -/
structure HighscoreVars where
  HighscoreData : List Highscore
  HighscoreDataVocation : String
  HighscoreDataWorld : String
  HighscoreDataTitle : String
  HighscoreDataRank : Int
  HighscoreDataLevel : Int
  HighscoreDataValue : Int
  insideError : Option GoError
  deriving DecidableEq, Repr

/-- The zero values the variables start with. -/
def HighscoreVars.zero : HighscoreVars :=
  { HighscoreData := [], HighscoreDataVocation := "", HighscoreDataWorld := "",
    HighscoreDataTitle := "", HighscoreDataRank := 0, HighscoreDataLevel := 0,
    HighscoreDataValue := 0, insideError := none }

/-- Lines 120-124: the pattern applied to a row, selected by the category. -/
def rowSubmatch (E : Env) (category : HighscoreCategory) (HighscoreDivHTML : String) :
    List (List String) :=
  if category = E.HighScoreLoyaltypoints then
    E.FindAllStringSubmatch SevenColumnRegex HighscoreDivHTML (-1)
  else
    E.FindAllStringSubmatch SixColumnRegex HighscoreDivHTML (-1)

/-- Lines 126-151: the assignments and the append done for a row whose pattern
matched (`len(subma1) > 0`). -/
def assembleRow (E : Env) (category : HighscoreCategory) (v : HighscoreVars)
    (subma1 : List (List String)) : Except Abort HighscoreVars := do
  let rank ← capture subma1 0 1
  let v1 := { v with HighscoreDataRank := E.TibiaDataStringToInteger rank }
  let v2 ←
    if category = E.HighScoreLoyaltypoints then do
      let title ← capture subma1 0 3
      let vocation ← capture subma1 0 4
      let world ← capture subma1 0 5
      let level ← capture subma1 0 6
      let value ← capture subma1 0 7
      pure { v1 with
        HighscoreDataTitle := title, HighscoreDataVocation := vocation,
        HighscoreDataWorld := world,
        HighscoreDataLevel := E.TibiaDataStringToInteger level,
        HighscoreDataValue := E.TibiaDataStringToInteger value }
    else do
      let vocation ← capture subma1 0 3
      let world ← capture subma1 0 4
      let level ← capture subma1 0 5
      let value ← capture subma1 0 6
      pure { v1 with
        HighscoreDataVocation := vocation, HighscoreDataWorld := world,
        HighscoreDataLevel := E.TibiaDataStringToInteger level,
        HighscoreDataValue := E.TibiaDataStringToInteger value }
  let name ← capture subma1 0 2
  pure { v2 with
    HighscoreData := v2.HighscoreData ++ [{
      Rank := v2.HighscoreDataRank,
      Name := E.TibiaDataSanitizeEscapedString name,
      Vocation := v2.HighscoreDataVocation,
      World := v2.HighscoreDataWorld,
      Level := v2.HighscoreDataLevel,
      Value := v2.HighscoreDataValue,
      Title := v2.HighscoreDataTitle }] }

/-- Lines 90-154: the callback given to `EachWithBreak`. -/
def highscoreRow (E : Env) (category : HighscoreCategory) (v : HighscoreVars)
    (s : Selection E) : Except Abort (HighscoreVars × Bool) :=
  match Html s with
  | .error err =>
    .ok ({ v with insideError := some (GoError.errorf
      ("[error] TibiaHighscoresImpl failed at HighscoreDivHTML, err := s.Html(), err: " ++ err)) },
      false)
  | .ok HighscoreDivHTML =>
    let subma1 := rowSubmatch E category HighscoreDivHTML
    if subma1.length > 0 then
      match assembleRow E category v subma1 with
      | .error a => .error a
      | .ok v2 => .ok (v2, true)
    else .ok (v, true)

/-- The selection `ReaderHTML.Find(".TableContent tr").First().NextAll()`. -/
def highscoreRows (E : Env) (ReaderHTML : E.Doc) : Selection E :=
  NextAll (First (E.Find ReaderHTML ".TableContent tr"))

/-- The function `TibiaHighscoresImpl`; `now` is the reading of the clock. -/
def TibiaHighscoresImpl (E : Env) (now : Nat) (world : String) (category : HighscoreCategory)
    (vocationName : String) (currentPage : Int) (BoxContentHTML : String) :
    Except Abort (Option HighscoresResponse × Option GoError) :=
  match E.NewDocumentFromReader BoxContentHTML with
  | .error err =>
    .ok (none, some (GoError.errorf
      ("[error] TibiaHighscoresImpl failed at goquery.NewDocumentFromReader, err: " ++ err)))
  | .ok ReaderHTML =>
    match getHighscoreAge E BoxContentHTML with
    | .error a => .error a
    | .ok HighscoreAge =>
      match getHighscorePages E BoxContentHTML with
      | .error a => .error a
      | .ok (HighscoreTotalPages, HighscoreTotalHighscores) =>
        if currentPage > HighscoreTotalPages then
          .ok (none, some GoError.ErrorHighscorePageTooBig)
        else
          match EachWithBreak (highscoreRow E category) (highscoreRows E ReaderHTML)
              HighscoreVars.zero with
          | .error a => .error a
          | .ok v =>
            let categoryString := E.categoryString category
            match v.insideError with
            | some insideError => .ok (none, some insideError)
            | none =>
              .ok (some {
                Highscores := {
                  World := E.casesTitle world,
                  Category := categoryString,
                  Vocation := vocationName,
                  HighscoreAge := HighscoreAge,
                  HighscoreList := v.HighscoreData,
                  HighscorePage := {
                    CurrentPage := currentPage,
                    TotalPages := HighscoreTotalPages,
                    TotalHighscores := HighscoreTotalHighscores } },
                Information := {
                  APIDetails := E.TibiaDataAPIDetails,
                  Timestamp := E.TibiaDataDatetime now "",
                  Status := { HTTPCode := StatusOK } } }, none)

/-! ## Creatures overview (`TibiaCreaturesOverviewV3.go`) -/

/-- Child of Creatures (used for list of creatures and boosted section). -/
structure OverviewCreature where
  Name : String
  Race : String
  ImageURL : String
  Featured : Bool
  deriving DecidableEq, Repr

/-- Child of JSONData. -/
structure CreaturesContainer where
  Boosted : OverviewCreature
  Creatures : List OverviewCreature
  deriving DecidableEq, Repr

/-- The metadata envelope built by `TibiaCreaturesOverviewV3Impl`. -/
structure InformationV3 where
  APIVersion : Int
  Timestamp : String
  deriving DecidableEq, Repr

/-- The base includes two levels: Creatures and Information. -/
structure CreaturesOverviewResponse where
  Creatures : CreaturesContainer
  Information : InformationV3
  deriving DecidableEq, Repr

def BoostedCreatureNameAndRaceRegex : String :=
  "<a.*race=(.*)\".*?>(.*)</a>"

def BoostedCreatureImageRegex : String :=
  "<img[^>]+\\bsrc=[\"']([^\"']+)[\"']"

def CreatureInformationRegex : String :=
  ".*race=(.*)\"><img src=\"(.*)\" border.*div>(.*)<\\/div>"

/-- Lines 66-93: the callback given to `Each`; the variable it captures and
writes is `CreaturesData`. -/
def creatureDiv (E : Env) (BoostedCreatureRace : String) (CreaturesData : List OverviewCreature)
    (s : Selection E) : Except Abort (List OverviewCreature) :=
  match Html s with
  | .error err => .error (Abort.logFatal err)
  | .ok CreatureDivHTML =>
    let subma1 := E.FindAllStringSubmatch CreatureInformationRegex CreatureDivHTML (-1)
    if subma1.length > 0 then
      match capture subma1 0 3 with
      | .error a => .error a
      | .ok rawName =>
        if len rawName > 1 then
          match capture subma1 0 1 with
          | .error a => .error a
          | .ok race =>
            let FeaturedRace := if race = BoostedCreatureRace then true else false
            match capture subma1 0 2 with
            | .error a => .error a
            | .ok image =>
              .ok (CreaturesData ++ [{
                Name := E.TibiaDataSanitizeEscapedString rawName,
                Race := race,
                ImageURL := image,
                Featured := FeaturedRace }])
        else .ok CreaturesData
    else .ok CreaturesData

/-- The function `TibiaCreaturesOverviewV3Impl`; `now` is the reading of the
clock.  The Go function has a single result, the response. -/
def TibiaCreaturesOverviewV3Impl (E : Env) (now : Nat) (BoxContentHTML : String) :
    Except Abort CreaturesOverviewResponse :=
  match E.NewDocumentFromReader BoxContentHTML with
  | .error err => .error (Abort.logFatal err)
  | .ok ReaderHTML =>
    match Html (First (E.Find ReaderHTML ".InnerTableContainer p")) with
    | .error err => .error (Abort.logFatal err)
    | .ok InnerTableContainerTMPB =>
      let subma1b :=
        E.FindAllStringSubmatch BoostedCreatureNameAndRaceRegex InnerTableContainerTMPB (-1)
      match capture subma1b 0 2 with
      | .error a => .error a
      | .ok BoostedCreatureName =>
        match capture subma1b 0 1 with
        | .error a => .error a
        | .ok BoostedCreatureRace =>
          let subma2b :=
            E.FindAllStringSubmatch BoostedCreatureImageRegex InnerTableContainerTMPB (-1)
          match capture subma2b 0 1 with
          | .error a => .error a
          | .ok BoostedCreatureImage =>
            match Each (creatureDiv E BoostedCreatureRace)
                (E.Find ReaderHTML ".BoxContent div div") [] with
            | .error a => .error a
            | .ok CreaturesData =>
              .ok {
                Creatures := {
                  Boosted := {
                    Name := BoostedCreatureName,
                    Race := BoostedCreatureRace,
                    ImageURL := BoostedCreatureImage,
                    Featured := true },
                  Creatures := CreaturesData },
                Information := {
                  APIVersion := E.TibiadataAPIversion,
                  Timestamp := E.TibiadataDatetimeV3 now "" } }

/-! ## Helpers of the repository that live outside the sources at hand -/

/-- Modelled from the spec: the body of `TibiaDataSanitizeEscapedString` is
not under src/.  The spec gives it as `sanitize(raw string) -> string`,
"decoding HTML-escaped entities".  The entities decoded here are the ones
markup rendering writes for the characters `&`, `<`, `>`, the double quote and
the apostrophe; every other character is kept. -/
def unescapeChars : List Char → List Char
  | [] => []
  | '&' :: 'a' :: 'm' :: 'p' :: ';' :: cs => '&' :: unescapeChars cs
  | '&' :: 'l' :: 't' :: ';' :: cs => '<' :: unescapeChars cs
  | '&' :: 'g' :: 't' :: ';' :: cs => '>' :: unescapeChars cs
  | '&' :: '#' :: '3' :: '4' :: ';' :: cs => '"' :: unescapeChars cs
  | '&' :: '#' :: '3' :: '9' :: ';' :: cs => Char.ofNat 39 :: unescapeChars cs
  | c :: cs => c :: unescapeChars cs

/-- Modelled from the spec: `TibiaDataSanitizeEscapedString`, the sanitizer
"decoding HTML-escaped entities", on strings. -/
def sanitizeEscapedString (data : String) : String :=
  String.mk (unescapeChars data.data)

/-- Modelled from the spec: the value of a string of decimal digits, or
nothing when a character is not a digit; part of `toInt`. -/
def digitsValue : List Char → Nat → Option Nat
  | [], acc => some acc
  | c :: cs, acc =>
    if c.isDigit then digitsValue cs (acc * 10 + (c.toNat - 48)) else none

/-- Modelled from the spec: the body of `TibiaDataStringToInteger` is not
under src/.  The spec gives it as `toInt(raw string) -> int`, a "tolerant
integer coercion that strips thousands separators" and returns 0 on failure. -/
def stringToInteger (data : String) : Int :=
  match data.data.filter (fun c => c != ',') with
  | [] => 0
  | '-' :: c :: cs =>
    match digitsValue (c :: cs) 0 with
    | some n => - (n : Int)
    | none => 0
  | c :: cs =>
    match digitsValue (c :: cs) 0 with
    | some n => (n : Int)
    | none => 0

/-- Modelled from the spec: the body of `TibiaDataDatetime` is not under
src/.  The spec gives it as the collaborator "supplying API version and
current timestamp for the envelope": called with the empty string it gives
the current time, here the clock reading written as a decimal number of
seconds; any other argument is a date to pass on. -/
def currentDatetime (now : Nat) (date : String) : String :=
  if date = "" then String.mk (Nat.toDigits 10 now) else date

/-! ## A sample environment

The sample environment answers for a handful of sample pages: for each page
it records what the libraries give on it, namely the elements each selector
of the sources selects (by their inner markup as `Selection.Html` renders
it) and the submatches of each pattern on each text it is applied to. -/

/-- A sample page. -/
structure SamplePage where
  /-- The markup text handed to the extractor. -/
  source : String
  /-- Inner markup of the elements selected by `.InnerTableContainer p`. -/
  paragraphs : List String
  /-- Inner markup of the elements selected by `.TableContent tr`, the rows of
  one table body. -/
  tableRows : List String
  /-- Inner markup of the elements selected by `.BoxContent div div`. -/
  boxDivs : List String
  deriving DecidableEq, Repr

/-- An element of a sample page: its inner markup and the inner markup of the
element siblings that follow it. -/
structure SampleNode where
  inner : String
  following : List String
  deriving DecidableEq, Repr

/-- The nodes of a run of sibling elements. -/
def siblingNodes : List String → List SampleNode
  | [] => []
  | r :: rest => { inner := r, following := rest } :: siblingNodes rest

/-- Nodes whose following siblings are not recorded. -/
def loneNodes (inners : List String) : List SampleNode :=
  inners.map (fun r => { inner := r, following := [] })

/-! ### Sample highscores pages -/

/-- The text ahead of the table: data age, page links and result count. -/
def sampleHeader : String :=
  "<div class=\"Text\">Highscores (Last Update: 5 minutes ago)</div><small><b>Pages: <span class=\"PageLink\">1</span> <span class=\"PageLink\"><a href=\"?currentpage=2\">2</a></span></b> <b>Results: 1,234</b></small>"

/-- The text the pages-and-results pattern captures as Pages in `sampleHeader`. -/
def samplePagesText : String :=
  "<span class=\"PageLink\">1</span> <span class=\"PageLink\"><a href=\"?currentpage=2\">2</a></span>"

/-- The label row that opens a highscores table. -/
def labelRow : String :=
  "<td>Rank</td><td>Name</td><td>Vocation</td><td>World</td><td>Level</td><td>Points</td>"

def rowGandalf : String :=
  "<td>3</td><td><a href=\"?name=Gandalf\">Gandalf</a></td><td class=\"v\">Druid</td><td>Secura</td><td class=\"r\">250</td><td class=\"r\">9001</td>"

def rowBubble : String :=
  "<td>4</td><td><a href=\"?name=Bubble\">Bubble</a></td><td class=\"v\">Knight</td><td>Antica</td><td class=\"r\">300</td><td class=\"r\">8,000</td>"

/-- The label row of the loyalty table. -/
def labelRowLoyalty : String :=
  "<td>Rank</td><td>Name</td><td>Title</td><td>Vocation</td><td>World</td><td>Level</td><td>Points</td>"

def rowEternal : String :=
  "<td>1</td><td><a href=\"?name=Eternal\">Eternal</a></td><td class=\"t\">Sage of Tibia</td><td class=\"v\">Elder Druid</td><td>Secura</td><td class=\"r\">400</td><td class=\"r\">5,000</td>"

def rowOldman : String :=
  "<td>2</td><td><a href=\"?name=Oldman\">Oldman</a></td><td class=\"t\">Guardian of Tibia</td><td class=\"v\">Elite Knight</td><td>Antica</td><td class=\"r\">350</td><td class=\"r\">4,000</td>"

/-- The markup of a highscores page: the header text, then one table whose
rows have the given inner markup. -/
def highscoresMarkup (header : String) (rows : List String) : String :=
  header ++ "<table class=\"TableContent\"><tbody>"
    ++ String.join (rows.map (fun r => "<tr>" ++ r ++ "</tr>")) ++ "</tbody></table>"

def highscoresPage (header : String) (rows : List String) : SamplePage :=
  { source := highscoresMarkup header rows, paragraphs := [], tableRows := rows, boxDivs := [] }

/-- A page of a six-column category: label row, then two players. -/
def experiencePage : SamplePage := highscoresPage sampleHeader [labelRow, rowGandalf, rowBubble]

/-- A page of the loyalty category: label row, then two players. -/
def loyaltyPage : SamplePage :=
  highscoresPage sampleHeader [labelRowLoyalty, rowEternal, rowOldman]

/-- A page whose table has no label row: every row is a player. -/
def bareTablePage : SamplePage := highscoresPage sampleHeader [rowGandalf, rowBubble]

/-- A page without the age and page-count texts. -/
def headlessPage : SamplePage := highscoresPage "" [labelRow, rowGandalf]

/-- A row that separates two blocks of a table: one empty cell. -/
def separatorRow : String := "<td colspan=\"6\"></td>"

/-- A player row whose rank and value cells do not hold numbers. -/
def rowNobody : String :=
  "<td>-</td><td><a href=\"?name=Nobody\">Nobody</a></td><td class=\"v\">None</td><td>Secura</td><td class=\"r\">8</td><td class=\"r\">n/a</td>"

/-- A page of a six-column category whose table holds, after the label row, a
player, a separator row and a player without numbers. -/
def mixedPage : SamplePage :=
  highscoresPage sampleHeader [labelRow, rowGandalf, separatorRow, rowNobody]

/-! ### Sample creatures pages -/

/-- The paragraph that presents the boosted creature. -/
def houndParagraph : String :=
  "<img src=\"https://static.tibia.com/images/library/hunterhound.gif\" border=\"0\"/>The boosted creature is <a href=\"https://www.tibia.com/library/?subtopic=creatures&amp;race=hunterhound\">Hunter&#39;s Hound</a>."

/-- A paragraph without a link to a creature and without an image. -/
def plainParagraph : String := "No creature is boosted today."

def houndDiv : String :=
  "<a href=\"https://www.tibia.com/library/?subtopic=creatures&amp;race=hunterhound\"><img src=\"https://static.tibia.com/images/library/hunterhound.gif\" border=\"0\"/><div>Hunter&#39;s Hound</div></a>"

def ratDiv : String :=
  "<a href=\"https://www.tibia.com/library/?subtopic=creatures&amp;race=rat\"><img src=\"https://static.tibia.com/images/library/rat.gif\" border=\"0\"/><div>Rat</div></a>"

/-- A creature entry whose name is the single character `&`, written `&amp;`
in markup. -/
def ampersandDiv : String :=
  "<a href=\"https://www.tibia.com/library/?subtopic=creatures&amp;race=ampersand\"><img src=\"https://static.tibia.com/images/library/ampersand.gif\" border=\"0\"/><div>&amp;</div></a>"

/-- The markup of a creatures page: the paragraph of the boosted creature,
then one division per creature, all inside a second division. -/
def creaturesMarkup (paragraph : String) (divs : List String) : String :=
  "<div class=\"BoxContent\"><div class=\"InnerTableContainer\"><p>" ++ paragraph
    ++ "</p></div><div>" ++ String.join (divs.map (fun d => "<div>" ++ d ++ "</div>"))
    ++ "</div></div>"

/-- The divisions `.BoxContent div div` selects, in document order: each
creature division, followed by the name division it holds. -/
def nestedDivs : List (String × String) → List String
  | [] => []
  | d :: ds => d.1 :: d.2 :: nestedDivs ds

/-- A creatures page.  Each creature division holds a division with the name,
so `.BoxContent div div` selects both, the outer one first; a pair gives the
inner markup of a creature division and of its name division. -/
def creaturesPage (paragraph : String) (divs : List (String × String)) : SamplePage :=
  { source := creaturesMarkup paragraph (divs.map Prod.fst),
    paragraphs := [paragraph], tableRows := [],
    boxDivs := nestedDivs divs }

/-- The boosted creature is listed, followed by another creature. -/
def houndPage : SamplePage :=
  creaturesPage houndParagraph [(houndDiv, "Hunter&#39;s Hound"), (ratDiv, "Rat")]

/-- The paragraph does not present a boosted creature. -/
def plainPage : SamplePage := creaturesPage plainParagraph [(ratDiv, "Rat")]

/-- The list holds a creature whose name is one character long once decoded. -/
def ampersandPage : SamplePage :=
  creaturesPage houndParagraph [(ampersandDiv, "&amp;"), (ratDiv, "Rat")]

def samplePages : List SamplePage :=
  [experiencePage, loyaltyPage, bareTablePage, headlessPage, mixedPage, houndPage, plainPage,
    ampersandPage]

/-! ### What the libraries give on the sample pages -/

/-- Submatches of the two header patterns on a page that opens with
`sampleHeader`: each match is the whole one-line text. -/
def headerSubmatches (source : String) : List (String × String × List (List String)) :=
  [(HighscoresAgeRegex, source, [[source, "5"]]),
   (HighscoresPageRegex, source, [[source, samplePagesText, "1,234"]])]

/-- The submatches of the patterns on the texts of the sample pages, as
(pattern, text, result of `FindAllStringSubmatch`). -/
def sampleSubmatches : List (String × String × List (List String)) :=
  headerSubmatches experiencePage.source ++ headerSubmatches loyaltyPage.source
  ++ headerSubmatches bareTablePage.source ++ headerSubmatches mixedPage.source ++
  [(SixColumnRegex, rowGandalf, [[rowGandalf, "3", "Gandalf", "Druid", "Secura", "250", "9001"]]),
   (SixColumnRegex, rowBubble, [[rowBubble, "4", "Bubble", "Knight", "Antica", "300", "8,000"]]),
   (SixColumnRegex, rowNobody, [[rowNobody, "-", "Nobody", "None", "Secura", "8", "n/a"]]),
   (SevenColumnRegex, rowEternal,
     [[rowEternal, "1", "Eternal", "Sage of Tibia", "Elder Druid", "Secura", "400", "5,000"]]),
   (SevenColumnRegex, rowOldman,
     [[rowOldman, "2", "Oldman", "Guardian of Tibia", "Elite Knight", "Antica", "350", "4,000"]]),
   (BoostedCreatureNameAndRaceRegex, houndParagraph,
     [["<a href=\"https://www.tibia.com/library/?subtopic=creatures&amp;race=hunterhound\">Hunter&#39;s Hound</a>",
       "hunterhound", "Hunter&#39;s Hound"]]),
   (BoostedCreatureImageRegex, houndParagraph,
     [["<img src=\"https://static.tibia.com/images/library/hunterhound.gif\"",
       "https://static.tibia.com/images/library/hunterhound.gif"]]),
   (CreatureInformationRegex, houndDiv,
     [["<a href=\"https://www.tibia.com/library/?subtopic=creatures&amp;race=hunterhound\"><img src=\"https://static.tibia.com/images/library/hunterhound.gif\" border=\"0\"/><div>Hunter&#39;s Hound</div>",
       "hunterhound", "https://static.tibia.com/images/library/hunterhound.gif",
       "Hunter&#39;s Hound"]]),
   (CreatureInformationRegex, ratDiv,
     [["<a href=\"https://www.tibia.com/library/?subtopic=creatures&amp;race=rat\"><img src=\"https://static.tibia.com/images/library/rat.gif\" border=\"0\"/><div>Rat</div>",
       "rat", "https://static.tibia.com/images/library/rat.gif", "Rat"]]),
   (CreatureInformationRegex, ampersandDiv,
     [["<a href=\"https://www.tibia.com/library/?subtopic=creatures&amp;race=ampersand\"><img src=\"https://static.tibia.com/images/library/ampersand.gif\" border=\"0\"/><div>&amp;</div>",
       "ampersand", "https://static.tibia.com/images/library/ampersand.gif", "&amp;"]])]

/-- The sample `FindAllStringSubmatch`: the recorded result, capped by `n`
(every recorded result has one match); a text that is not recorded has no
submatch. -/
def sampleFindAllStringSubmatch (pattern text : String) (n : Int) : List (List String) :=
  match sampleSubmatches.find? (fun e => e.1 = pattern ∧ e.2.1 = text) with
  | some e => if n = 0 then [] else e.2.2
  | none => []

/-- The sample loader: it never fails; a text that is not a sample page is a
document in which the selectors of the sources select nothing. -/
def sampleNewDocument (text : String) : Except String SamplePage :=
  match samplePages.find? (fun p => p.source = text) with
  | some p => .ok p
  | none => .ok { source := text, paragraphs := [], tableRows := [], boxDivs := [] }

/-- The sample `Find`, for the three selectors of the sources. -/
def sampleFind (d : SamplePage) (selector : String) : List SampleNode :=
  if selector = ".TableContent tr" then siblingNodes d.tableRows
  else if selector = ".InnerTableContainer p" then loneNodes d.paragraphs
  else if selector = ".BoxContent div div" then loneNodes d.boxDivs
  else []

/-- The sample environment.  The category codes are 10 for loyalty points and
6 for experience; title casing is given for the world names of the samples. -/
def sampleEnv : Env where
  Doc := SamplePage
  Node := SampleNode
  NewDocumentFromReader := sampleNewDocument
  Find := sampleFind
  nextSiblings := fun n => siblingNodes n.following
  innerHtml := fun n => .ok n.inner
  FindAllStringSubmatch := sampleFindAllStringSubmatch
  TibiaDataStringToInteger := stringToInteger
  TibiaDataSanitizeEscapedString := sanitizeEscapedString
  HighScoreLoyaltypoints := 10
  categoryString := fun c => if c = 10 then "loyaltypoints" else if c = 6 then "experience" else ""
  casesTitle := fun s => if s = "secura" then "Secura" else if s = "antica" then "Antica" else s
  TibiaDataAPIDetails := "v3"
  TibiadataAPIversion := 3
  TibiaDataDatetime := currentDatetime
  TibiadataDatetimeV3 := currentDatetime

/-! ## Notions used to state the properties -/

/-- The number of capture groups of a pattern (`Regexp.NumSubexp`); in the
patterns of the sources every opening parenthesis opens a capture group. -/
def NumSubexp (pattern : String) : Nat :=
  (pattern.data.filter (fun c => c = '(')).length

/-- The contract of `FindAllStringSubmatch` on the size of a match: the text
of the match itself, then one string per capture group. -/
def SubmatchArity (E : Env) : Prop :=
  ∀ (pattern text : String) (n : Int), ∀ m ∈ E.FindAllStringSubmatch pattern text n,
    m.length = NumSubexp pattern + 1

/-- The value of `HighscoreTotalPages` when line 83 compares it with the
requested page. -/
def totalPages (E : Env) (BoxContentHTML : String) : Int :=
  match getHighscorePages E BoxContentHTML with
  | .ok p => p.1
  | .error _ => 0

/-- The first submatch `subma1[0]` of the row pattern on the inner markup of a
row, when the markup can be retrieved and the pattern matches. -/
def rowMatch (E : Env) (category : HighscoreCategory) (n : E.Node) : Option (List String) :=
  match E.innerHtml n with
  | .ok HighscoreDivHTML => (rowSubmatch E category HighscoreDivHTML).head?
  | .error _ => none

/-- The records the row callback appends when it runs on one row with the
variables at their zero values. -/
def rowRecords (E : Env) (category : HighscoreCategory) (n : E.Node) : List Highscore :=
  match highscoreRow E category HighscoreVars.zero [n] with
  | .ok (v, _) => v.HighscoreData
  | .error _ => []

/-- The title variable is only written for the loyalty category: for any other
category it keeps its zero value. -/
def TitleUnset (E : Env) (category : HighscoreCategory) (v : HighscoreVars) : Prop :=
  category ≠ E.HighScoreLoyaltypoints → v.HighscoreDataTitle = ""

/-- The highest index lines 128-144 read in `subma1[0]`: 7 for the loyalty
category, 6 for any other. -/
def lastCapture (E : Env) (category : HighscoreCategory) : Nat :=
  if category = E.HighScoreLoyaltypoints then 7 else 6

/-- The captures the row callback reads on a row exist: the first submatch, if
there is one, reaches up to index `lastCapture`. -/
def RowReadable (E : Env) (category : HighscoreCategory) (n : E.Node) : Prop :=
  ∀ m, rowMatch E category n = some m → lastCapture E category < m.length

/-- The first submatch of a pattern on the inner markup of a node, when the
markup can be retrieved and the pattern matches. -/
def firstSubmatch (E : Env) (pattern : String) (n : E.Node) : Option (List String) :=
  match E.innerHtml n with
  | .ok markup => (E.FindAllStringSubmatch pattern markup (-1)).head?
  | .error _ => none

/-- The response to a request for page 1 of the loyalty sample page, at clock
reading 0. -/
def loyaltyResponse : HighscoresResponse :=
  { Highscores := {
      World := "Secura", Category := "loyaltypoints", Vocation := "all",
      HighscoreAge := 5,
      HighscoreList := [
        { Rank := 1, Name := "Eternal", Vocation := "Elder Druid", World := "Secura",
          Level := 400, Value := 5000, Title := "Sage of Tibia" },
        { Rank := 2, Name := "Oldman", Vocation := "Elite Knight", World := "Antica",
          Level := 350, Value := 4000, Title := "Guardian of Tibia" }],
      HighscorePage := { CurrentPage := 1, TotalPages := 2, TotalHighscores := 1234 } },
    Information := { APIDetails := "v3", Timestamp := "0", Status := { HTTPCode := 200 } } }

/-- The records the creature callback appends when it runs on one division
with an empty list. -/
def creatureRecords (E : Env) (BoostedCreatureRace : String) (n : E.Node) :
    List OverviewCreature :=
  match creatureDiv E BoostedCreatureRace [] [n] with
  | .ok l => l
  | .error _ => []

/-- The inner markup of the header fragment, the first paragraph under the
inner table container, when it can be retrieved. -/
def headerFragment (E : Env) (ReaderHTML : E.Doc) : Except String String :=
  Html (First (E.Find ReaderHTML ".InnerTableContainer p"))

/-- A highscores response with the timestamp of its envelope blanked. -/
def HighscoresResponse.clearTimestamp (r : HighscoresResponse) : HighscoresResponse :=
  { r with Information := { r.Information with Timestamp := "" } }

/-- An overview response with the timestamp of its envelope blanked. -/
def CreaturesOverviewResponse.clearTimestamp (r : CreaturesOverviewResponse) :
    CreaturesOverviewResponse :=
  { r with Information := { r.Information with Timestamp := "" } }

/-- Modelled from the spec: what the spec's `toInt`, the "tolerant integer
coercion that strips thousands separators", can coerce: once the separators
are taken out, an optional sign followed by one or more decimal digits. -/
def isIntegerText (text : String) : Bool :=
  match text.data.filter (fun c => c != ',') with
  | [] => false
  | '-' :: cs => !cs.isEmpty && cs.all Char.isDigit
  | '+' :: cs => !cs.isEmpty && cs.all Char.isDigit
  | cs => cs.all Char.isDigit

/-- Modelled from the spec: the contract of `toInt(raw string) -> int`,
"returning 0 on failure", as a property of the helper of an environment. -/
def ZeroOnFailure (E : Env) : Prop :=
  ∀ text : String, isIntegerText text = false → E.TibiaDataStringToInteger text = 0

/-- The record list a call hands back for a run of visited rows: the list the
row loop builds from the zero values, when the loop ends without a panic and
without a recorded error. -/
def extractList (E : Env) (category : HighscoreCategory) (rows : Selection E) :
    Option (List Highscore) :=
  match EachWithBreak (highscoreRow E category) rows HighscoreVars.zero with
  | .ok v => if v.insideError = none then some v.HighscoreData else none
  | .error _ => none

/-- The response to a request for page 1 of the mixed sample page, at clock
reading 0: the separator row gives no record, and the rank and value that are
not numbers are 0. -/
def mixedResponse : HighscoresResponse :=
  { Highscores := {
      World := "Secura", Category := "experience", Vocation := "all",
      HighscoreAge := 5,
      HighscoreList := [
        { Rank := 3, Name := "Gandalf", Vocation := "Druid", World := "Secura",
          Level := 250, Value := 9001, Title := "" },
        { Rank := 0, Name := "Nobody", Vocation := "None", World := "Secura",
          Level := 8, Value := 0, Title := "" }],
      HighscorePage := { CurrentPage := 1, TotalPages := 2, TotalHighscores := 1234 } },
    Information := { APIDetails := "v3", Timestamp := "0", Status := { HTTPCode := 200 } } }

/-! # Properties -/

set_option maxRecDepth 100000

/-! ## General facts about the embedded operations -/

theorem index_of_lt {α : Type} (xs : List α) (i : Nat) (h : i < xs.length) :
    index xs i = .ok (xs.get ⟨i, h⟩) := by
  unfold index
  rw [List.get?_eq_get h]

theorem index_ok_iff {α : Type} (xs : List α) (i : Nat) :
    (∃ x, index xs i = .ok x) ↔ i < xs.length := by
  unfold index
  constructor
  · rintro ⟨x, hx⟩
    cases hg : xs.get? i with
    | none => rw [hg] at hx; cases hx
    | some y => exact (List.get?_eq_some.mp hg).1
  · intro h
    rw [List.get?_eq_get h]
    exact ⟨_, rfl⟩

theorem capture_nil (j : Nat) : capture [] 0 j = .error Abort.indexOutOfRange := rfl

theorem capture_cons (m : List String) (rest : List (List String)) (j : Nat) :
    capture (m :: rest) 0 j = index m j := rfl

theorem capture_of_lt (m : List String) (rest : List (List String)) (j : Nat)
    (h : j < m.length) : capture (m :: rest) 0 j = .ok (m.get ⟨j, h⟩) := by
  rw [capture_cons, index_of_lt]

/-- Under the arity contract every capture group of the first match of a
pattern can be read. -/
theorem capture_of_arity (E : Env) (hE : SubmatchArity E) (pattern text : String) (n : Int)
    (j : Nat) (hj : j ≤ NumSubexp pattern)
    (hlen : (E.FindAllStringSubmatch pattern text n).length > 0) :
    ∃ c, capture (E.FindAllStringSubmatch pattern text n) 0 j = .ok c := by
  have hA := hE pattern text n
  cases hs : E.FindAllStringSubmatch pattern text n with
  | nil => rw [hs] at hlen; simp at hlen
  | cons m rest =>
    rw [hs] at hA
    have hm := hA m (List.mem_cons_self _ _)
    have hlt : j < m.length := by omega
    exact ⟨_, capture_of_lt m rest j hlt⟩

theorem getHighscoreAge_ok (E : Env) (hE : SubmatchArity E) (html : String) :
    ∃ a, getHighscoreAge E html = .ok a := by
  unfold getHighscoreAge
  by_cases hlen : (E.FindAllStringSubmatch HighscoresAgeRegex html 1).length > 0
  · obtain ⟨c, hc⟩ := capture_of_arity E hE HighscoresAgeRegex html 1 1 (by decide) hlen
    simp only [hlen, if_true, hc]
    exact ⟨_, rfl⟩
  · simp only [hlen, if_false]
    exact ⟨_, rfl⟩

theorem getHighscorePages_ok (E : Env) (hE : SubmatchArity E) (html : String) :
    ∃ p, getHighscorePages E html = .ok p := by
  unfold getHighscorePages
  by_cases hlen : (E.FindAllStringSubmatch HighscoresPageRegex html 1).length > 0
  · obtain ⟨c, hc⟩ := capture_of_arity E hE HighscoresPageRegex html 1 1 (by decide) hlen
    obtain ⟨d, hd⟩ := capture_of_arity E hE HighscoresPageRegex html 1 2 (by decide) hlen
    simp only [hlen, if_true, hc, hd]
    exact ⟨_, rfl⟩
  · simp only [hlen, if_false]
    exact ⟨_, rfl⟩

/-- The record lines 142-150 append for a loyalty row with first submatch `m`. -/
theorem assembleRow_loyalty (E : Env) (v : HighscoreVars) (m : List String)
    (rest : List (List String)) (h : 8 ≤ m.length) :
    assembleRow E E.HighScoreLoyaltypoints v (m :: rest) = .ok
      { v with
        HighscoreDataRank := E.TibiaDataStringToInteger (m.getD 1 ""),
        HighscoreDataTitle := m.getD 3 "",
        HighscoreDataVocation := m.getD 4 "",
        HighscoreDataWorld := m.getD 5 "",
        HighscoreDataLevel := E.TibiaDataStringToInteger (m.getD 6 ""),
        HighscoreDataValue := E.TibiaDataStringToInteger (m.getD 7 ""),
        HighscoreData := v.HighscoreData ++ [{
          Rank := E.TibiaDataStringToInteger (m.getD 1 ""),
          Name := E.TibiaDataSanitizeEscapedString (m.getD 2 ""),
          Vocation := m.getD 4 "",
          World := m.getD 5 "",
          Level := E.TibiaDataStringToInteger (m.getD 6 ""),
          Value := E.TibiaDataStringToInteger (m.getD 7 ""),
          Title := m.getD 3 "" }] } := by
  rcases m with _ | ⟨c0, _ | ⟨c1, _ | ⟨c2, _ | ⟨c3, _ | ⟨c4, _ | ⟨c5, _ | ⟨c6, _ | ⟨c7, t⟩⟩⟩⟩⟩⟩⟩⟩ <;>
    simp at h
  simp only [assembleRow, if_true]
  rfl

theorem assembleRow_loyalty_short (E : Env) (v : HighscoreVars) (m : List String)
    (rest : List (List String)) (h : m.length < 8) :
    assembleRow E E.HighScoreLoyaltypoints v (m :: rest) = .error Abort.indexOutOfRange := by
  rcases m with _ | ⟨c0, _ | ⟨c1, _ | ⟨c2, _ | ⟨c3, _ | ⟨c4, _ | ⟨c5, _ | ⟨c6, _ | ⟨c7, t⟩⟩⟩⟩⟩⟩⟩⟩ <;>
    first
    | (simp only [assembleRow, if_true]; rfl)
    | (simp at h; omega)

/-- The record lines 142-150 append for a six-column row with first submatch
`m`; the title is the one the variable holds. -/
theorem assembleRow_other (E : Env) (category : HighscoreCategory)
    (hc : category ≠ E.HighScoreLoyaltypoints) (v : HighscoreVars) (m : List String)
    (rest : List (List String)) (h : 7 ≤ m.length) :
    assembleRow E category v (m :: rest) = .ok
      { v with
        HighscoreDataRank := E.TibiaDataStringToInteger (m.getD 1 ""),
        HighscoreDataVocation := m.getD 3 "",
        HighscoreDataWorld := m.getD 4 "",
        HighscoreDataLevel := E.TibiaDataStringToInteger (m.getD 5 ""),
        HighscoreDataValue := E.TibiaDataStringToInteger (m.getD 6 ""),
        HighscoreData := v.HighscoreData ++ [{
          Rank := E.TibiaDataStringToInteger (m.getD 1 ""),
          Name := E.TibiaDataSanitizeEscapedString (m.getD 2 ""),
          Vocation := m.getD 3 "",
          World := m.getD 4 "",
          Level := E.TibiaDataStringToInteger (m.getD 5 ""),
          Value := E.TibiaDataStringToInteger (m.getD 6 ""),
          Title := v.HighscoreDataTitle }] } := by
  rcases m with _ | ⟨c0, _ | ⟨c1, _ | ⟨c2, _ | ⟨c3, _ | ⟨c4, _ | ⟨c5, _ | ⟨c6, t⟩⟩⟩⟩⟩⟩⟩ <;>
    simp at h
  simp only [assembleRow, if_neg hc]
  rfl

theorem assembleRow_other_short (E : Env) (category : HighscoreCategory)
    (hc : category ≠ E.HighScoreLoyaltypoints) (v : HighscoreVars) (m : List String)
    (rest : List (List String)) (h : m.length < 7) :
    assembleRow E category v (m :: rest) = .error Abort.indexOutOfRange := by
  rcases m with _ | ⟨c0, _ | ⟨c1, _ | ⟨c2, _ | ⟨c3, _ | ⟨c4, _ | ⟨c5, _ | ⟨c6, t⟩⟩⟩⟩⟩⟩⟩ <;>
    first
    | (simp only [assembleRow, if_neg hc]; rfl)
    | (simp at h; omega)

/-- The row callback on a row whose markup cannot be retrieved. -/
theorem highscoreRow_html_error (E : Env) (category : HighscoreCategory) (v : HighscoreVars)
    (n : E.Node) (err : String) (h : E.innerHtml n = .error err) :
    highscoreRow E category v [n] = .ok ({ v with insideError := some (GoError.errorf
      ("[error] TibiaHighscoresImpl failed at HighscoreDivHTML, err := s.Html(), err: " ++ err)) },
      false) := by
  simp only [highscoreRow, Html, h]

/-- The row callback on a row the pattern does not match. -/
theorem highscoreRow_no_match (E : Env) (category : HighscoreCategory) (v : HighscoreVars)
    (n : E.Node) (markup : String) (h : E.innerHtml n = .ok markup)
    (hm : rowSubmatch E category markup = []) :
    highscoreRow E category v [n] = .ok (v, true) := by
  simp [highscoreRow, Html, h, hm]

/-- The row callback on a row the pattern matches. -/
theorem highscoreRow_match (E : Env) (category : HighscoreCategory) (v : HighscoreVars)
    (n : E.Node) (markup : String) (h : E.innerHtml n = .ok markup)
    (m : List String) (rest : List (List String))
    (hm : rowSubmatch E category markup = m :: rest) :
    highscoreRow E category v [n] =
      match assembleRow E category v (m :: rest) with
      | .error a => .error a
      | .ok v2 => .ok (v2, true) := by
  simp [highscoreRow, Html, h, hm]

theorem rowMatch_of_html_error (E : Env) (category : HighscoreCategory) (n : E.Node)
    (err : String) (h : E.innerHtml n = .error err) : rowMatch E category n = none := by
  simp only [rowMatch, h]

theorem rowMatch_of_markup (E : Env) (category : HighscoreCategory) (n : E.Node)
    (markup : String) (h : E.innerHtml n = .ok markup) :
    rowMatch E category n = (rowSubmatch E category markup).head? := by
  simp only [rowMatch, h]

/-- A step of the row loop that continues: the records of the row, as built
from the zero values, are appended and no error is recorded. -/
theorem highscoreRow_continue (E : Env) (category : HighscoreCategory)
    (v v2 : HighscoreVars) (n : E.Node) (hv : TitleUnset E category v)
    (h : highscoreRow E category v [n] = .ok (v2, true)) :
    v2.HighscoreData = v.HighscoreData ++ rowRecords E category n
      ∧ v2.insideError = v.insideError ∧ TitleUnset E category v2 := by
  cases hh : E.innerHtml n with
  | error err =>
    rw [highscoreRow_html_error E category v n err hh] at h
    simp at h
  | ok markup =>
    cases hm : rowSubmatch E category markup with
    | nil =>
      rw [highscoreRow_no_match E category v n markup hh hm] at h
      simp only [Except.ok.injEq, Prod.mk.injEq, and_true] at h
      subst h
      have hr : rowRecords E category n = [] := by
        unfold rowRecords
        rw [highscoreRow_no_match E category _ n markup hh hm]
        rfl
      rw [hr]
      exact ⟨by simp, rfl, hv⟩
    | cons m rest =>
      rw [highscoreRow_match E category v n markup hh m rest hm] at h
      have hz := highscoreRow_match E category HighscoreVars.zero n markup hh m rest hm
      by_cases hc : category = E.HighScoreLoyaltypoints
      · subst hc
        by_cases hl : 8 ≤ m.length
        · rw [assembleRow_loyalty E v m rest hl] at h
          rw [assembleRow_loyalty E _ m rest hl] at hz
          simp only [Except.ok.injEq, Prod.mk.injEq, and_true] at h
          subst h
          have hr : rowRecords E E.HighScoreLoyaltypoints n = [{
              Rank := E.TibiaDataStringToInteger (m.getD 1 ""),
              Name := E.TibiaDataSanitizeEscapedString (m.getD 2 ""),
              Vocation := m.getD 4 "", World := m.getD 5 "",
              Level := E.TibiaDataStringToInteger (m.getD 6 ""),
              Value := E.TibiaDataStringToInteger (m.getD 7 ""),
              Title := m.getD 3 "" }] := by
            unfold rowRecords
            rw [hz]
            rfl
          rw [hr]
          exact ⟨rfl, rfl, fun hne => absurd rfl hne⟩
        · rw [assembleRow_loyalty_short E v m rest (by omega)] at h
          simp at h
      · by_cases hl : 7 ≤ m.length
        · rw [assembleRow_other E category hc v m rest hl] at h
          rw [assembleRow_other E category hc _ m rest hl] at hz
          simp only [Except.ok.injEq, Prod.mk.injEq, and_true] at h
          subst h
          have hr : rowRecords E category n = [{
              Rank := E.TibiaDataStringToInteger (m.getD 1 ""),
              Name := E.TibiaDataSanitizeEscapedString (m.getD 2 ""),
              Vocation := m.getD 3 "", World := m.getD 4 "",
              Level := E.TibiaDataStringToInteger (m.getD 5 ""),
              Value := E.TibiaDataStringToInteger (m.getD 6 ""),
              Title := "" }] := by
            unfold rowRecords
            rw [hz]
            rfl
          rw [hr]
          refine ⟨?_, rfl, fun _ => hv hc⟩
          show v.HighscoreData ++ [_] = _
          rw [hv hc]
        · rw [assembleRow_other_short E category hc v m rest (by omega)] at h
          simp at h

/-- A step of the row loop that breaks records an error built by `fmt.Errorf`. -/
theorem highscoreRow_break (E : Env) (category : HighscoreCategory)
    (v v2 : HighscoreVars) (n : E.Node)
    (h : highscoreRow E category v [n] = .ok (v2, false)) :
    (∃ msg, v2.insideError = some (GoError.errorf msg)) ∧ rowMatch E category n = none := by
  cases hh : E.innerHtml n with
  | error err =>
    rw [highscoreRow_html_error E category v n err hh] at h
    simp only [Except.ok.injEq, Prod.mk.injEq, and_true] at h
    subst h
    exact ⟨⟨_, rfl⟩, rowMatch_of_html_error E category n err hh⟩
  | ok markup =>
    cases hm : rowSubmatch E category markup with
    | nil =>
      rw [highscoreRow_no_match E category v n markup hh hm] at h
      simp at h
    | cons m rest =>
      rw [highscoreRow_match E category v n markup hh m rest hm] at h
      cases ha : assembleRow E category v (m :: rest) with
      | error a => rw [ha] at h; simp at h
      | ok v3 => rw [ha] at h; simp at h

theorem rowRecords_of_no_match (E : Env) (category : HighscoreCategory) (n : E.Node)
    (h : rowMatch E category n = none) : rowRecords E category n = [] := by
  cases hh : E.innerHtml n with
  | error err =>
    unfold rowRecords
    rw [highscoreRow_html_error E category _ n err hh]
    rfl
  | ok markup =>
    rw [rowMatch_of_markup E category n markup hh] at h
    cases hm : rowSubmatch E category markup with
    | nil =>
      unfold rowRecords
      rw [highscoreRow_no_match E category _ n markup hh hm]
      rfl
    | cons m rest => rw [hm] at h; simp at h

/-- The record of a loyalty row, from its first submatch. -/
theorem rowRecords_loyalty (E : Env) (n : E.Node) (m : List String)
    (h : rowMatch E E.HighScoreLoyaltypoints n = some m) (hl : 7 < m.length) :
    rowRecords E E.HighScoreLoyaltypoints n = [{
      Rank := E.TibiaDataStringToInteger (m.getD 1 ""),
      Name := E.TibiaDataSanitizeEscapedString (m.getD 2 ""),
      Vocation := m.getD 4 "", World := m.getD 5 "",
      Level := E.TibiaDataStringToInteger (m.getD 6 ""),
      Value := E.TibiaDataStringToInteger (m.getD 7 ""),
      Title := m.getD 3 "" }] := by
  cases hh : E.innerHtml n with
  | error err => rw [rowMatch_of_html_error E _ n err hh] at h; simp at h
  | ok markup =>
    rw [rowMatch_of_markup E _ n markup hh] at h
    cases hm : rowSubmatch E E.HighScoreLoyaltypoints markup with
    | nil => rw [hm] at h; simp at h
    | cons m2 rest =>
      rw [hm] at h
      simp only [List.head?_cons, Option.some.injEq] at h
      subst h
      unfold rowRecords
      rw [highscoreRow_match E _ _ n markup hh m2 rest hm,
        assembleRow_loyalty E _ m2 rest (by omega)]
      rfl

/-- The record of a six-column row, from its first submatch. -/
theorem rowRecords_other (E : Env) (category : HighscoreCategory)
    (hc : category ≠ E.HighScoreLoyaltypoints) (n : E.Node) (m : List String)
    (h : rowMatch E category n = some m) (hl : 6 < m.length) :
    rowRecords E category n = [{
      Rank := E.TibiaDataStringToInteger (m.getD 1 ""),
      Name := E.TibiaDataSanitizeEscapedString (m.getD 2 ""),
      Vocation := m.getD 3 "", World := m.getD 4 "",
      Level := E.TibiaDataStringToInteger (m.getD 5 ""),
      Value := E.TibiaDataStringToInteger (m.getD 6 ""),
      Title := "" }] := by
  cases hh : E.innerHtml n with
  | error err => rw [rowMatch_of_html_error E _ n err hh] at h; simp at h
  | ok markup =>
    rw [rowMatch_of_markup E _ n markup hh] at h
    cases hm : rowSubmatch E category markup with
    | nil => rw [hm] at h; simp at h
    | cons m2 rest =>
      rw [hm] at h
      simp only [List.head?_cons, Option.some.injEq] at h
      subst h
      unfold rowRecords
      rw [highscoreRow_match E _ _ n markup hh m2 rest hm,
        assembleRow_other E category hc _ m2 rest (by omega)]
      rfl

theorem lastCapture_loyalty (E : Env) : lastCapture E E.HighScoreLoyaltypoints = 7 := by
  simp [lastCapture]

theorem lastCapture_other (E : Env) (category : HighscoreCategory)
    (hc : category ≠ E.HighScoreLoyaltypoints) : lastCapture E category = 6 := by
  simp [lastCapture, hc]

/-- A row whose captures can be read gives as many records as it has first
submatches: one or none. -/
theorem rowRecords_length (E : Env) (category : HighscoreCategory) (n : E.Node)
    (hr : RowReadable E category n) :
    (rowRecords E category n).length = (rowMatch E category n).toList.length := by
  cases hm : rowMatch E category n with
  | none => rw [rowRecords_of_no_match E category n hm]; rfl
  | some m =>
    have hl := hr m hm
    by_cases hc : category = E.HighScoreLoyaltypoints
    · subst hc
      rw [lastCapture_loyalty] at hl
      rw [rowRecords_loyalty E n m hm hl]
      rfl
    · rw [lastCapture_other E category hc] at hl
      rw [rowRecords_other E category hc n m hm hl]
      rfl

/-- Under the arity contract the captures of every row can be read. -/
theorem rowReadable_of_arity (E : Env) (hE : SubmatchArity E) (category : HighscoreCategory)
    (n : E.Node) : RowReadable E category n := by
  intro m hm
  cases hh : E.innerHtml n with
  | error err => rw [rowMatch_of_html_error E _ n err hh] at hm; simp at hm
  | ok markup =>
    rw [rowMatch_of_markup E _ n markup hh] at hm
    have hmem : m ∈ rowSubmatch E category markup := List.mem_of_mem_head? hm
    unfold rowSubmatch at hmem
    unfold lastCapture
    by_cases hc : category = E.HighScoreLoyaltypoints
    · rw [if_pos hc] at hmem ⊢
      have := hE _ _ _ m hmem
      have h7 : NumSubexp SevenColumnRegex = 7 := by decide
      omega
    · rw [if_neg hc] at hmem ⊢
      have := hE _ _ _ m hmem
      have h6 : NumSubexp SixColumnRegex = 6 := by decide
      omega

/-- A step of the row loop that returns has read captures that exist. -/
theorem rowReadable_of_step (E : Env) (category : HighscoreCategory)
    (v : HighscoreVars) (p : HighscoreVars × Bool) (n : E.Node)
    (h : highscoreRow E category v [n] = .ok p) : RowReadable E category n := by
  intro m hm
  cases hh : E.innerHtml n with
  | error err => rw [rowMatch_of_html_error E _ n err hh] at hm; simp at hm
  | ok markup =>
    rw [rowMatch_of_markup E _ n markup hh] at hm
    cases hs : rowSubmatch E category markup with
    | nil => rw [hs] at hm; simp at hm
    | cons m2 rest =>
      rw [hs] at hm
      simp only [List.head?_cons, Option.some.injEq] at hm
      subst hm
      rw [highscoreRow_match E category v n markup hh m2 rest hs] at h
      by_cases hc : category = E.HighScoreLoyaltypoints
      · subst hc
        rw [lastCapture_loyalty]
        by_contra hl
        rw [assembleRow_loyalty_short E v m2 rest (by omega)] at h
        simp at h
      · rw [lastCapture_other E category hc]
        by_contra hl
        rw [assembleRow_other_short E category hc v m2 rest (by omega)] at h
        simp at h

/-- The row callback returns whenever the captures of the row can be read. -/
theorem highscoreRow_returns (E : Env) (category : HighscoreCategory) (v : HighscoreVars)
    (n : E.Node) (hr : RowReadable E category n) :
    ∃ p, highscoreRow E category v [n] = .ok p := by
  cases hh : E.innerHtml n with
  | error err => exact ⟨_, highscoreRow_html_error E category v n err hh⟩
  | ok markup =>
    cases hs : rowSubmatch E category markup with
    | nil => exact ⟨_, highscoreRow_no_match E category v n markup hh hs⟩
    | cons m rest =>
      have hm : rowMatch E category n = some m := by
        rw [rowMatch_of_markup E _ n markup hh, hs]; rfl
      have hl := hr m hm
      rw [highscoreRow_match E category v n markup hh m rest hs]
      by_cases hc : category = E.HighScoreLoyaltypoints
      · subst hc
        rw [lastCapture_loyalty] at hl
        rw [assembleRow_loyalty E v m rest (by omega)]
        exact ⟨_, rfl⟩
      · rw [lastCapture_other E category hc] at hl
        rw [assembleRow_other E category hc v m rest (by omega)]
        exact ⟨_, rfl⟩

/-- The row loop returns whenever the captures of every row can be read. -/
theorem eachRow_returns (E : Env) (category : HighscoreCategory) :
    ∀ (rows : Selection E) (v : HighscoreVars), (∀ n ∈ rows, RowReadable E category n) →
      ∃ v2, EachWithBreak (highscoreRow E category) rows v = .ok v2 := by
  intro rows
  induction rows with
  | nil => intro v _; exact ⟨v, rfl⟩
  | cons n rest ih =>
    intro v hr
    obtain ⟨⟨v3, b⟩, hp⟩ := highscoreRow_returns E category v n (hr n (List.mem_cons_self _ _))
    simp only [EachWithBreak, hp]
    cases b with
    | false => exact ⟨_, rfl⟩
    | true => exact ih v3 (fun k hk => hr k (List.mem_cons_of_mem _ hk))

/-- The row loop: when it ends without a recorded error, it has appended the
records of every row in order; otherwise the error is one built by
`fmt.Errorf`. -/
theorem eachRow_spec (E : Env) (category : HighscoreCategory) :
    ∀ (rows : Selection E) (v v2 : HighscoreVars), TitleUnset E category v →
      v.insideError = none →
      EachWithBreak (highscoreRow E category) rows v = .ok v2 →
      (v2.insideError = none
        ∧ v2.HighscoreData = v.HighscoreData ++ (rows.map (rowRecords E category)).flatten
        ∧ TitleUnset E category v2 ∧ ∀ n ∈ rows, RowReadable E category n)
      ∨ ((∃ msg, v2.insideError = some (GoError.errorf msg))
        ∧ ∃ n ∈ rows, rowMatch E category n = none) := by
  intro rows
  induction rows with
  | nil =>
    intro v v2 hv he h
    simp only [EachWithBreak, Except.ok.injEq] at h
    subst h
    exact Or.inl ⟨he, by simp, hv, by simp⟩
  | cons n rest ih =>
    intro v v2 hv he h
    simp only [EachWithBreak] at h
    cases hs : highscoreRow E category v [n] with
    | error a => rw [hs] at h; simp at h
    | ok p =>
      obtain ⟨v3, b⟩ := p
      rw [hs] at h
      cases b with
      | false =>
        simp only [Except.ok.injEq] at h
        subst h
        obtain ⟨hb1, hb2⟩ := highscoreRow_break E category v v3 n hs
        exact Or.inr ⟨hb1, n, List.mem_cons_self _ _, hb2⟩
      | true =>
        simp only at h
        obtain ⟨hd, he3, hv3⟩ := highscoreRow_continue E category v v3 n hv hs
        rcases ih v3 v2 hv3 (he3.trans he) h with ⟨h1, h2, h3, h5⟩ | h4
        · refine Or.inl ⟨h1, ?_, h3, ?_⟩
          · rw [h2, hd]
            simp
          · intro k hk
            rcases List.mem_cons.mp hk with rfl | hk2
            · exact rowReadable_of_step E category v _ k hs
            · exact h5 k hk2
        · obtain ⟨h41, k, hk, h42⟩ := h4
          exact Or.inr ⟨h41, k, List.mem_cons_of_mem _ hk, h42⟩

/-- The function body once the document is loaded and the header is read. -/
theorem TibiaHighscoresImpl_loaded (E : Env) (now : Nat) (world : String)
    (category : HighscoreCategory) (vocationName : String) (currentPage : Int)
    (html : String) (doc : E.Doc) (age tp th : Int)
    (hload : E.NewDocumentFromReader html = .ok doc)
    (hage : getHighscoreAge E html = .ok age)
    (hpages : getHighscorePages E html = .ok (tp, th)) :
    TibiaHighscoresImpl E now world category vocationName currentPage html =
      if currentPage > tp then .ok (none, some GoError.ErrorHighscorePageTooBig)
      else
        match EachWithBreak (highscoreRow E category) (highscoreRows E doc)
            HighscoreVars.zero with
        | .error a => .error a
        | .ok v =>
          match v.insideError with
          | some insideError => .ok (none, some insideError)
          | none =>
            .ok (some {
              Highscores := {
                World := E.casesTitle world,
                Category := E.categoryString category,
                Vocation := vocationName,
                HighscoreAge := age,
                HighscoreList := v.HighscoreData,
                HighscorePage := {
                  CurrentPage := currentPage,
                  TotalPages := tp,
                  TotalHighscores := th } },
              Information := {
                APIDetails := E.TibiaDataAPIDetails,
                Timestamp := E.TibiaDataDatetime now "",
                Status := { HTTPCode := StatusOK } } }, none) := by
  simp only [TibiaHighscoresImpl, hload, hage, hpages]

theorem titleUnset_zero (E : Env) (category : HighscoreCategory) :
    TitleUnset E category HighscoreVars.zero := fun _ => rfl

/-- C1: for every fragment that loads as markup, and every world, category,
vocation and requested page, `TibiaHighscoresImpl` returns
`validation.ErrorHighscorePageTooBig` with a nil response (hence no record
list) if and only if the requested page is greater than the total number of
pages derived from the header; in particular the error is never returned for
a page within range, whatever the rows hold. -/
theorem TibiaHighscoresImpl_page_too_big_iff (E : Env) (hE : SubmatchArity E) (now : Nat)
    (world : String) (category : HighscoreCategory) (vocationName : String)
    (currentPage : Int) (html : String) (doc : E.Doc)
    (hload : E.NewDocumentFromReader html = .ok doc) :
    TibiaHighscoresImpl E now world category vocationName currentPage html
        = .ok (none, some GoError.ErrorHighscorePageTooBig)
      ↔ currentPage > totalPages E html := by
  obtain ⟨age, hage⟩ := getHighscoreAge_ok E hE html
  obtain ⟨⟨tp, th⟩, hpages⟩ := getHighscorePages_ok E hE html
  have htp : totalPages E html = tp := by simp only [totalPages, hpages]
  rw [TibiaHighscoresImpl_loaded E now world category vocationName currentPage html doc
    age tp th hload hage hpages, htp]
  by_cases hp : currentPage > tp
  · simp only [hp, if_true]
  · simp only [hp, if_false, iff_false]
    cases hl : EachWithBreak (highscoreRow E category) (highscoreRows E doc)
        HighscoreVars.zero with
    | error a => simp
    | ok v =>
      rcases eachRow_spec E category _ _ v (titleUnset_zero E category) rfl hl with
        ⟨h1, _⟩ | ⟨⟨msg, h4⟩, _⟩
      · simp [h1]
      · simp [h4]

theorem sampleSubmatches_arity :
    ∀ e ∈ sampleSubmatches, ∀ m ∈ e.2.2, m.length = NumSubexp e.1 + 1 := by
  decide

/-- The sample environment meets the arity contract. -/
theorem sampleEnv_arity : SubmatchArity sampleEnv := by
  intro pattern text n m hm
  change m ∈ sampleFindAllStringSubmatch pattern text n at hm
  unfold sampleFindAllStringSubmatch at hm
  cases hf : sampleSubmatches.find? (fun e => e.1 = pattern ∧ e.2.1 = text) with
  | none => rw [hf] at hm; simp at hm
  | some e =>
    rw [hf] at hm
    have hmem := List.mem_of_find?_eq_some hf
    have hp := List.find?_some hf
    simp only [decide_eq_true_eq] at hp
    by_cases hn : n = 0
    · simp [hn] at hm
    · simp only [hn, if_false] at hm
      rw [← hp.1]
      exact sampleSubmatches_arity e hmem m hm

/-- C1 on the experience sample page, page 3 of 2 requested. -/
theorem TibiaHighscoresImpl_page_too_big_iff_witness :
    SubmatchArity sampleEnv
      ∧ sampleEnv.NewDocumentFromReader experiencePage.source = .ok experiencePage
      ∧ (TibiaHighscoresImpl sampleEnv 0 "secura" 6 "all" 3 experiencePage.source
            = .ok (none, some GoError.ErrorHighscorePageTooBig)
          ↔ (3 : Int) > totalPages sampleEnv experiencePage.source) :=
  ⟨sampleEnv_arity, rfl,
    TibiaHighscoresImpl_page_too_big_iff sampleEnv sampleEnv_arity 0 "secura" 6 "all" 3
      experiencePage.source experiencePage rfl⟩

/-- What a returned response tells about the run that built it. -/
theorem TibiaHighscoresImpl_response (E : Env) (now : Nat) (world : String)
    (category : HighscoreCategory) (vocationName : String) (currentPage : Int)
    (html : String) (resp : HighscoresResponse) (e : Option GoError)
    (h : TibiaHighscoresImpl E now world category vocationName currentPage html
      = .ok (some resp, e)) :
    e = none ∧ ∃ (doc : E.Doc) (age tp th : Int) (v : HighscoreVars),
      E.NewDocumentFromReader html = .ok doc
      ∧ getHighscoreAge E html = .ok age
      ∧ getHighscorePages E html = .ok (tp, th)
      ∧ currentPage ≤ tp
      ∧ EachWithBreak (highscoreRow E category) (highscoreRows E doc) HighscoreVars.zero = .ok v
      ∧ v.insideError = none
      ∧ resp = {
          Highscores := {
            World := E.casesTitle world,
            Category := E.categoryString category,
            Vocation := vocationName,
            HighscoreAge := age,
            HighscoreList := v.HighscoreData,
            HighscorePage := {
              CurrentPage := currentPage,
              TotalPages := tp,
              TotalHighscores := th } },
          Information := {
            APIDetails := E.TibiaDataAPIDetails,
            Timestamp := E.TibiaDataDatetime now "",
            Status := { HTTPCode := StatusOK } } } := by
  cases hload : E.NewDocumentFromReader html with
  | error err => simp [TibiaHighscoresImpl, hload] at h
  | ok doc =>
    cases hage : getHighscoreAge E html with
    | error a => simp [TibiaHighscoresImpl, hload, hage] at h
    | ok age =>
      cases hpages : getHighscorePages E html with
      | error a => simp [TibiaHighscoresImpl, hload, hage, hpages] at h
      | ok p =>
        obtain ⟨tp, th⟩ := p
        rw [TibiaHighscoresImpl_loaded E now world category vocationName currentPage html doc
          age tp th hload hage hpages] at h
        by_cases hp : currentPage > tp
        · simp [hp] at h
        · simp only [hp, if_false] at h
          cases hl : EachWithBreak (highscoreRow E category) (highscoreRows E doc)
              HighscoreVars.zero with
          | error a => rw [hl] at h; simp at h
          | ok v =>
            rw [hl] at h
            cases hi : v.insideError with
            | some ie => simp [hi] at h
            | none =>
              simp only [hi, Except.ok.injEq, Prod.mk.injEq, Option.some.injEq] at h
              exact ⟨h.2.symm, doc, age, tp, th, v, rfl, rfl, rfl, by omega, hl, hi, h.1.symm⟩

/-- The record list of a returned response: the records of the visited rows,
in order; the captures of every visited row could be read. -/
theorem TibiaHighscoresImpl_list (E : Env) (now : Nat) (world : String)
    (category : HighscoreCategory) (vocationName : String) (currentPage : Int)
    (html : String) (resp : HighscoresResponse) (e : Option GoError)
    (h : TibiaHighscoresImpl E now world category vocationName currentPage html
      = .ok (some resp, e)) :
    ∃ doc : E.Doc, E.NewDocumentFromReader html = .ok doc
      ∧ resp.Highscores.HighscoreList
          = ((highscoreRows E doc).map (rowRecords E category)).flatten
      ∧ ∀ n ∈ highscoreRows E doc, RowReadable E category n := by
  obtain ⟨_, doc, age, tp, th, v, hload, _, _, _, hl, hi, hr⟩ :=
    TibiaHighscoresImpl_response E now world category vocationName currentPage html resp e h
  refine ⟨doc, hload, ?_⟩
  rcases eachRow_spec E category _ _ v (titleUnset_zero E category) rfl hl with
    ⟨_, h2, _, h4⟩ | ⟨⟨msg, h5⟩, _⟩
  · refine ⟨?_, h4⟩
    rw [hr]
    simpa [HighscoreVars.zero] using h2
  · rw [hi] at h5; cases h5

theorem flatten_singletons {α β : Type} (f : α → List β) :
    ∀ l : List α, (∀ x ∈ l, (f x).length = 1) →
      ((l.map f).flatten).map (fun r => [r]) = l.map f := by
  intro l
  induction l with
  | nil => intro _; rfl
  | cons x xs ih =>
    intro hx
    have h1 := hx x (List.mem_cons_self _ _)
    obtain ⟨r, hr⟩ := List.length_eq_one.mp h1
    have ih2 := ih (fun y hy => hx y (List.mem_cons_of_mem _ hy))
    simp only [List.map_cons, List.flatten_cons, List.map_append, ih2, hr, List.map_nil,
      List.singleton_append]

/-- C2, as the code has it: when the fragment loads, the requested page is in
range and every row the extractor visits (the element siblings that follow the
first `.TableContent tr`; the first one is skipped) matches the pattern
selected by the category, a response is returned whose HighscoreList has as
many records as there are visited rows, the i-th record being the one built
from the i-th visited row. -/
theorem TibiaHighscoresImpl_record_per_visited_row (E : Env) (hE : SubmatchArity E) (now : Nat)
    (world : String) (category : HighscoreCategory) (vocationName : String)
    (currentPage : Int) (html : String) (doc : E.Doc)
    (hload : E.NewDocumentFromReader html = .ok doc)
    (hpage : currentPage ≤ totalPages E html)
    (hrows : ∀ n ∈ highscoreRows E doc, (rowMatch E category n).isSome) :
    ∃ resp, TibiaHighscoresImpl E now world category vocationName currentPage html
        = .ok (some resp, none)
      ∧ resp.Highscores.HighscoreList.length = (highscoreRows E doc).length
      ∧ resp.Highscores.HighscoreList.map (fun r => [r])
          = (highscoreRows E doc).map (rowRecords E category) := by
  obtain ⟨age, hage⟩ := getHighscoreAge_ok E hE html
  obtain ⟨⟨tp, th⟩, hpages⟩ := getHighscorePages_ok E hE html
  have htp : totalPages E html = tp := by simp only [totalPages, hpages]
  rw [htp] at hpage
  have hread : ∀ n ∈ highscoreRows E doc, RowReadable E category n :=
    fun n _ => rowReadable_of_arity E hE category n
  obtain ⟨v, hl⟩ := eachRow_returns E category (highscoreRows E doc) HighscoreVars.zero hread
  have hone : ∀ n ∈ highscoreRows E doc, (rowRecords E category n).length = 1 := by
    intro n hn
    rw [rowRecords_length E category n (hread n hn)]
    have := hrows n hn
    cases hm : rowMatch E category n with
    | none => rw [hm] at this; simp at this
    | some m => rfl
  rcases eachRow_spec E category _ _ v (titleUnset_zero E category) rfl hl with
    ⟨h1, h2, _, _⟩ | ⟨_, k, hk, hnone⟩
  · have hdata : v.HighscoreData
        = ((highscoreRows E doc).map (rowRecords E category)).flatten := by
      simpa [HighscoreVars.zero] using h2
    have hmap := flatten_singletons (rowRecords E category) (highscoreRows E doc) hone
    refine ⟨{
        Highscores := {
          World := E.casesTitle world,
          Category := E.categoryString category,
          Vocation := vocationName,
          HighscoreAge := age,
          HighscoreList := v.HighscoreData,
          HighscorePage := {
            CurrentPage := currentPage,
            TotalPages := tp,
            TotalHighscores := th } },
        Information := {
          APIDetails := E.TibiaDataAPIDetails,
          Timestamp := E.TibiaDataDatetime now "",
          Status := { HTTPCode := StatusOK } } }, ?_, ?_, ?_⟩
    · rw [TibiaHighscoresImpl_loaded E now world category vocationName currentPage html doc
        age tp th hload hage hpages]
      have hp : ¬ currentPage > tp := by omega
      simp only [hp, if_false, hl, h1]
    · show v.HighscoreData.length = _
      rw [hdata]
      have := congrArg List.length hmap
      rw [List.length_map, List.length_map] at this
      exact this
    · show v.HighscoreData.map _ = _
      rw [hdata]
      exact hmap
  · have := hrows k hk
    rw [hnone] at this
    simp at this

/-- C2 (as the code has it) on the experience sample page: two visited rows,
two records. -/
theorem TibiaHighscoresImpl_record_per_visited_row_witness :
    SubmatchArity sampleEnv
      ∧ sampleEnv.NewDocumentFromReader experiencePage.source = .ok experiencePage
      ∧ (1 : Int) ≤ totalPages sampleEnv experiencePage.source
      ∧ (∀ n ∈ highscoreRows sampleEnv experiencePage, (rowMatch sampleEnv 6 n).isSome)
      ∧ ∃ resp, TibiaHighscoresImpl sampleEnv 0 "secura" 6 "all" 1 experiencePage.source
          = .ok (some resp, none)
        ∧ resp.Highscores.HighscoreList.length = (highscoreRows sampleEnv experiencePage).length
        ∧ resp.Highscores.HighscoreList.map (fun r => [r])
            = (highscoreRows sampleEnv experiencePage).map (rowRecords sampleEnv 6) :=
  ⟨sampleEnv_arity, rfl, by decide, by decide,
    TibiaHighscoresImpl_record_per_visited_row sampleEnv sampleEnv_arity 0 "secura" 6 "all" 1
      experiencePage.source experiencePage rfl (by decide) (by decide)⟩

/-- C2 as stated fails: on a page whose two `.TableContent tr` rows both match
the six-column pattern, with the requested page in range, the returned list
has one record, not two (the first row is skipped). -/
theorem TibiaHighscoresImpl_skips_first_row :
    sampleEnv.NewDocumentFromReader bareTablePage.source = .ok bareTablePage
      ∧ (1 : Int) ≤ totalPages sampleEnv bareTablePage.source
      ∧ (∀ n ∈ sampleEnv.Find bareTablePage ".TableContent tr",
          (rowMatch sampleEnv 6 n).isSome)
      ∧ (sampleEnv.Find bareTablePage ".TableContent tr").length = 2
      ∧ ∃ resp, TibiaHighscoresImpl sampleEnv 0 "secura" 6 "all" 1 bareTablePage.source
          = .ok (some resp, none)
        ∧ resp.Highscores.HighscoreList.length = 1 :=
  ⟨rfl, by decide, by decide, by decide, _, rfl, rfl⟩

theorem rowMatch_loyalty (E : Env) (n : E.Node) :
    rowMatch E E.HighScoreLoyaltypoints n = firstSubmatch E SevenColumnRegex n := by
  simp only [rowMatch, firstSubmatch, rowSubmatch, if_true]

theorem rowMatch_other (E : Env) (category : HighscoreCategory)
    (hc : category ≠ E.HighScoreLoyaltypoints) (n : E.Node) :
    rowMatch E category n = firstSubmatch E SixColumnRegex n := by
  simp only [rowMatch, firstSubmatch, rowSubmatch, if_neg hc]

/-- The titles of the records of loyalty rows are the third captures of the
rows the seven-column pattern matches, row by row. -/
theorem titles_loyalty (E : Env) :
    ∀ rows : Selection E, (∀ n ∈ rows, RowReadable E E.HighScoreLoyaltypoints n) →
      ((rows.map (rowRecords E E.HighScoreLoyaltypoints)).flatten).map (fun r => r.Title)
        = (rows.filterMap (firstSubmatch E SevenColumnRegex)).map (fun m => m.getD 3 "") := by
  intro rows
  induction rows with
  | nil => intro _; rfl
  | cons n rest ih =>
    intro hr
    have ih2 := ih (fun k hk => hr k (List.mem_cons_of_mem _ hk))
    have hn := hr n (List.mem_cons_self _ _)
    rw [List.map_cons, List.flatten_cons, List.map_append, ih2]
    cases hm : rowMatch E E.HighScoreLoyaltypoints n with
    | none =>
      rw [rowRecords_of_no_match E _ n hm]
      rw [rowMatch_loyalty] at hm
      simp [List.filterMap_cons, hm]
    | some m =>
      have hl := hn m hm
      rw [lastCapture_loyalty] at hl
      rw [rowRecords_loyalty E n m hm hl]
      rw [rowMatch_loyalty] at hm
      simp [List.filterMap_cons, hm]

/-- The records of rows of any other category have an empty title. -/
theorem titles_other (E : Env) (category : HighscoreCategory)
    (hc : category ≠ E.HighScoreLoyaltypoints) :
    ∀ rows : Selection E, (∀ n ∈ rows, RowReadable E category n) →
      ∀ r ∈ (rows.map (rowRecords E category)).flatten, r.Title = "" := by
  intro rows hr r hmem
  rw [List.mem_flatten] at hmem
  obtain ⟨l, hl, hrl⟩ := hmem
  rw [List.mem_map] at hl
  obtain ⟨n, hn, rfl⟩ := hl
  cases hm : rowMatch E category n with
  | none => rw [rowRecords_of_no_match E _ n hm] at hrl; simp at hrl
  | some m =>
    have hlen := hr n hn m hm
    rw [lastCapture_other E category hc] at hlen
    rw [rowRecords_other E category hc n m hm hlen] at hrl
    simp only [List.mem_singleton] at hrl
    rw [hrl]

/-- C3: for every successful highscores extraction, if the category is loyalty
points the titles of the records are, record by record, the third capture of
the seven-column pattern on the record's own row (the visited rows that the
pattern matches, in order); for any other category the title of every record
is the empty string. -/
theorem TibiaHighscoresImpl_titles (E : Env) (now : Nat) (world : String)
    (category : HighscoreCategory) (vocationName : String) (currentPage : Int)
    (html : String) (resp : HighscoresResponse)
    (h : TibiaHighscoresImpl E now world category vocationName currentPage html
      = .ok (some resp, none)) :
    ∃ doc : E.Doc, E.NewDocumentFromReader html = .ok doc
      ∧ (category = E.HighScoreLoyaltypoints →
          resp.Highscores.HighscoreList.map (fun r => r.Title)
            = ((highscoreRows E doc).filterMap (firstSubmatch E SevenColumnRegex)).map
                (fun m => m.getD 3 ""))
      ∧ (category ≠ E.HighScoreLoyaltypoints →
          ∀ r ∈ resp.Highscores.HighscoreList, r.Title = "") := by
  obtain ⟨doc, hload, hlist, hread⟩ :=
    TibiaHighscoresImpl_list E now world category vocationName currentPage html resp none h
  refine ⟨doc, hload, ?_, ?_⟩
  · intro hc
    subst hc
    rw [hlist]
    exact titles_loyalty E _ hread
  · intro hc
    rw [hlist]
    exact titles_other E category hc _ hread

/-- C3 on the loyalty sample page. -/
theorem TibiaHighscoresImpl_titles_witness :
    TibiaHighscoresImpl sampleEnv 0 "secura" 10 "all" 1 loyaltyPage.source
        = .ok (some loyaltyResponse, none)
      ∧ ∃ doc : sampleEnv.Doc, sampleEnv.NewDocumentFromReader loyaltyPage.source = .ok doc
        ∧ ((10 : Int) = sampleEnv.HighScoreLoyaltypoints →
            loyaltyResponse.Highscores.HighscoreList.map (fun r => r.Title)
              = ((highscoreRows sampleEnv doc).filterMap
                  (firstSubmatch sampleEnv SevenColumnRegex)).map (fun m => m.getD 3 ""))
        ∧ ((10 : Int) ≠ sampleEnv.HighScoreLoyaltypoints →
            ∀ r ∈ loyaltyResponse.Highscores.HighscoreList, r.Title = "") :=
  ⟨rfl, TibiaHighscoresImpl_titles sampleEnv 0 "secura" 10 "all" 1 loyaltyPage.source
    loyaltyResponse rfl⟩

/-! ## The creatures overview -/

/-- The creature callback on a division whose markup cannot be retrieved. -/
theorem creatureDiv_html_error (E : Env) (race : String) (acc : List OverviewCreature)
    (n : E.Node) (err : String) (h : E.innerHtml n = .error err) :
    creatureDiv E race acc [n] = .error (Abort.logFatal err) := by
  simp only [creatureDiv, Html, h]

/-- The creature callback on a division the pattern does not match. -/
theorem creatureDiv_no_match (E : Env) (race : String) (acc : List OverviewCreature)
    (n : E.Node) (h : firstSubmatch E CreatureInformationRegex n = none)
    (hh : ∃ markup, E.innerHtml n = .ok markup) :
    creatureDiv E race acc [n] = .ok acc := by
  obtain ⟨markup, hm⟩ := hh
  simp only [firstSubmatch, hm] at h
  cases hs : E.FindAllStringSubmatch CreatureInformationRegex markup (-1) with
  | nil => simp [creatureDiv, Html, hm, hs]
  | cons m rest => rw [hs] at h; simp at h

/-- The creature callback on a division the pattern matches: the raw name
(capture 3) decides by its byte length whether a record is appended. -/
theorem creatureDiv_match (E : Env) (race : String) (acc : List OverviewCreature)
    (n : E.Node) (m : List String) (h : firstSubmatch E CreatureInformationRegex n = some m)
    (hl : 3 < m.length) :
    creatureDiv E race acc [n] =
      .ok (if len (m.getD 3 "") > 1 then
        acc ++ [{
          Name := E.TibiaDataSanitizeEscapedString (m.getD 3 ""),
          Race := m.getD 1 "",
          ImageURL := m.getD 2 "",
          Featured := decide (m.getD 1 "" = race) }]
      else acc) := by
  cases hm : E.innerHtml n with
  | error err => simp [firstSubmatch, hm] at h
  | ok markup =>
    simp only [firstSubmatch, hm] at h
    cases hs : E.FindAllStringSubmatch CreatureInformationRegex markup (-1) with
    | nil => rw [hs] at h; simp at h
    | cons m2 rest =>
      rw [hs] at h
      simp only [List.head?_cons, Option.some.injEq] at h
      subst h
      rcases m2 with _ | ⟨c0, _ | ⟨c1, _ | ⟨c2, _ | ⟨c3, t⟩⟩⟩⟩ <;> simp at hl
      by_cases hlen : len c3 > 1
      · by_cases hr : c1 = race <;>
          simp [creatureDiv, Html, hm, hs, capture, index, hlen, hr]
      · simp [creatureDiv, Html, hm, hs, capture, index, hlen]

/-- A creature callback that returns has read captures that exist. -/
theorem creatureDiv_readable (E : Env) (race : String) (acc acc2 : List OverviewCreature)
    (n : E.Node) (h : creatureDiv E race acc [n] = .ok acc2) :
    (∃ markup, E.innerHtml n = .ok markup)
      ∧ ∀ m, firstSubmatch E CreatureInformationRegex n = some m → 3 < m.length := by
  cases hm : E.innerHtml n with
  | error err => rw [creatureDiv_html_error E race acc n err hm] at h; cases h
  | ok markup =>
    refine ⟨⟨markup, rfl⟩, ?_⟩
    intro m hfm
    simp only [firstSubmatch, hm] at hfm
    cases hs : E.FindAllStringSubmatch CreatureInformationRegex markup (-1) with
    | nil => rw [hs] at hfm; simp at hfm
    | cons m2 rest =>
      rw [hs] at hfm
      simp only [List.head?_cons, Option.some.injEq] at hfm
      subst hfm
      by_contra hl
      rcases m2 with _ | ⟨c0, _ | ⟨c1, _ | ⟨c2, _ | ⟨c3, t⟩⟩⟩⟩ <;>
        simp [creatureDiv, Html, hm, hs, capture, index] at h hl

/-- A step of the creature loop appends the records of its division, as built
from the empty list. -/
theorem creatureDiv_step (E : Env) (race : String) (acc acc2 : List OverviewCreature)
    (n : E.Node) (h : creatureDiv E race acc [n] = .ok acc2) :
    acc2 = acc ++ creatureRecords E race n := by
  obtain ⟨hh, hr⟩ := creatureDiv_readable E race acc acc2 n h
  cases hm : firstSubmatch E CreatureInformationRegex n with
  | none =>
    rw [creatureDiv_no_match E race acc n hm hh] at h
    simp only [Except.ok.injEq] at h
    simp [creatureRecords, creatureDiv_no_match E race [] n hm hh, h]
  | some m =>
    have hl := hr m hm
    rw [creatureDiv_match E race acc n m hm hl] at h
    simp only [Except.ok.injEq] at h
    unfold creatureRecords
    rw [creatureDiv_match E race [] n m hm hl, ← h]
    by_cases hlen : len (m.getD 3 "") > 1
    · rw [if_pos hlen, if_pos hlen]
      rfl
    · rw [if_neg hlen, if_neg hlen]
      exact (List.append_nil acc).symm

/-- The creature loop: the records of every division, in order. -/
theorem eachCreature_spec (E : Env) (race : String) :
    ∀ (divs : Selection E) (acc acc2 : List OverviewCreature),
      Each (creatureDiv E race) divs acc = .ok acc2 →
      acc2 = acc ++ (divs.map (creatureRecords E race)).flatten
        ∧ ∀ n ∈ divs, ∀ m, firstSubmatch E CreatureInformationRegex n = some m →
            3 < m.length := by
  intro divs
  induction divs with
  | nil =>
    intro acc acc2 h
    simp only [Each, Except.ok.injEq] at h
    simp [h]
  | cons n rest ih =>
    intro acc acc2 h
    simp only [Each] at h
    cases hs : creatureDiv E race acc [n] with
    | error a => rw [hs] at h; simp at h
    | ok acc3 =>
      rw [hs] at h
      simp only at h
      obtain ⟨h1, h2⟩ := ih acc3 acc2 h
      refine ⟨?_, ?_⟩
      · rw [h1, creatureDiv_step E race acc acc3 n hs]
        simp
      · intro k hk
        rcases List.mem_cons.mp hk with rfl | hk2
        · exact (creatureDiv_readable E race acc acc3 k hs).2
        · exact h2 k hk2

/-- What a returned overview response tells about the run that built it. -/
theorem TibiaCreaturesOverviewV3Impl_response (E : Env) (now : Nat) (html : String)
    (resp : CreaturesOverviewResponse)
    (h : TibiaCreaturesOverviewV3Impl E now html = .ok resp) :
    ∃ (doc : E.Doc) (header name race image : String) (list : List OverviewCreature),
      E.NewDocumentFromReader html = .ok doc
      ∧ headerFragment E doc = .ok header
      ∧ capture (E.FindAllStringSubmatch BoostedCreatureNameAndRaceRegex header (-1)) 0 2
          = .ok name
      ∧ capture (E.FindAllStringSubmatch BoostedCreatureNameAndRaceRegex header (-1)) 0 1
          = .ok race
      ∧ capture (E.FindAllStringSubmatch BoostedCreatureImageRegex header (-1)) 0 1 = .ok image
      ∧ Each (creatureDiv E race) (E.Find doc ".BoxContent div div") [] = .ok list
      ∧ resp = {
          Creatures := {
            Boosted := { Name := name, Race := race, ImageURL := image, Featured := true },
            Creatures := list },
          Information := {
            APIVersion := E.TibiadataAPIversion,
            Timestamp := E.TibiadataDatetimeV3 now "" } } := by
  unfold TibiaCreaturesOverviewV3Impl at h
  cases hload : E.NewDocumentFromReader html with
  | error err => simp [hload] at h
  | ok doc =>
    simp only [hload] at h
    cases hhead : Html (First (E.Find doc ".InnerTableContainer p")) with
    | error err => simp [hhead] at h
    | ok header =>
      simp only [hhead] at h
      cases hname :
          capture (E.FindAllStringSubmatch BoostedCreatureNameAndRaceRegex header (-1)) 0 2 with
      | error a => simp [hname] at h
      | ok name =>
        simp only [hname] at h
        cases hrace :
            capture (E.FindAllStringSubmatch BoostedCreatureNameAndRaceRegex header (-1)) 0 1 with
        | error a => simp [hrace] at h
        | ok race =>
          simp only [hrace] at h
          cases himage :
              capture (E.FindAllStringSubmatch BoostedCreatureImageRegex header (-1)) 0 1 with
          | error a => simp [himage] at h
          | ok image =>
            simp only [himage] at h
            cases hl : Each (creatureDiv E race) (E.Find doc ".BoxContent div div") [] with
            | error a => simp [hl] at h
            | ok list =>
              simp only [hl, Except.ok.injEq] at h
              exact ⟨doc, header, name, race, image, list, rfl, hhead, hname, hrace, himage, hl,
                h.symm⟩

/-- The records of one division: none, or one record built from the first
submatch, whose raw name is longer than one byte. -/
theorem creatureRecords_cases (E : Env) (race : String) (n : E.Node) :
    creatureRecords E race n = []
      ∨ ∃ m, firstSubmatch E CreatureInformationRegex n = some m ∧ 3 < m.length
          ∧ len (m.getD 3 "") > 1
          ∧ creatureRecords E race n = [{
              Name := E.TibiaDataSanitizeEscapedString (m.getD 3 ""),
              Race := m.getD 1 "",
              ImageURL := m.getD 2 "",
              Featured := decide (m.getD 1 "" = race) }] := by
  cases hc : creatureDiv E race [] [n] with
  | error a => left; simp only [creatureRecords, hc]
  | ok l =>
    obtain ⟨hh, hr⟩ := creatureDiv_readable E race [] l n hc
    cases hm : firstSubmatch E CreatureInformationRegex n with
    | none =>
      left
      simp only [creatureRecords, creatureDiv_no_match E race [] n hm hh]
    | some m =>
      have hl := hr m hm
      by_cases hlen : len (m.getD 3 "") > 1
      · right
        refine ⟨m, rfl, hl, hlen, ?_⟩
        simp only [creatureRecords, creatureDiv_match E race [] n m hm hl, if_pos hlen]
        rfl
      · left
        simp only [creatureRecords, creatureDiv_match E race [] n m hm hl, if_neg hlen]

/-- C4: in every overview response the function returns, the Boosted record has
Featured = true, and a record of the creature list has Featured = true if and
only if its Race equals the Race of the Boosted record. -/
theorem TibiaCreaturesOverviewV3Impl_featured (E : Env) (now : Nat) (html : String)
    (resp : CreaturesOverviewResponse)
    (h : TibiaCreaturesOverviewV3Impl E now html = .ok resp) :
    resp.Creatures.Boosted.Featured = true
      ∧ ∀ c ∈ resp.Creatures.Creatures,
          (c.Featured = true ↔ c.Race = resp.Creatures.Boosted.Race) := by
  obtain ⟨doc, header, name, race, image, list, _, _, _, _, _, hl, hresp⟩ :=
    TibiaCreaturesOverviewV3Impl_response E now html resp h
  subst hresp
  refine ⟨rfl, ?_⟩
  intro c hc
  have hlist := (eachCreature_spec E race _ [] list hl).1
  rw [hlist, List.nil_append, List.mem_flatten] at hc
  obtain ⟨l, hl2, hcl⟩ := hc
  rw [List.mem_map] at hl2
  obtain ⟨n, _, rfl⟩ := hl2
  rcases creatureRecords_cases E race n with h0 | ⟨m, _, _, _, h1⟩
  · rw [h0] at hcl; cases hcl
  · rw [h1, List.mem_singleton] at hcl
    subst hcl
    simp

/-- C4 on the sample page whose boosted creature is listed ahead of another
creature. -/
theorem TibiaCreaturesOverviewV3Impl_featured_witness :
    (∃ resp, TibiaCreaturesOverviewV3Impl sampleEnv 0 houndPage.source = .ok resp
      ∧ resp.Creatures.Creatures.map (fun c => (c.Race, c.Featured))
          = [("hunterhound", true), ("rat", false)]
      ∧ resp.Creatures.Boosted.Featured = true
      ∧ ∀ c ∈ resp.Creatures.Creatures,
          (c.Featured = true ↔ c.Race = resp.Creatures.Boosted.Race)) :=
  ⟨_, rfl, rfl,
    TibiaCreaturesOverviewV3Impl_featured sampleEnv 0 houndPage.source _ rfl⟩

/-- C5, as the code has it: the creature list of a returned response holds the
records of the selected divisions in order, and a division the per-creature
pattern matches gives a record exactly when the raw captured name is longer
than one byte; the name stored is the decoded one, whose length is not
looked at. -/
theorem TibiaCreaturesOverviewV3Impl_kept_by_raw_length (E : Env) (now : Nat) (html : String)
    (resp : CreaturesOverviewResponse)
    (h : TibiaCreaturesOverviewV3Impl E now html = .ok resp) :
    ∃ doc : E.Doc, E.NewDocumentFromReader html = .ok doc
      ∧ resp.Creatures.Creatures
          = ((E.Find doc ".BoxContent div div").map
              (creatureRecords E resp.Creatures.Boosted.Race)).flatten
      ∧ ∀ n ∈ E.Find doc ".BoxContent div div", ∀ m,
          firstSubmatch E CreatureInformationRegex n = some m →
          creatureRecords E resp.Creatures.Boosted.Race n =
            if len (m.getD 3 "") > 1 then
              [{ Name := E.TibiaDataSanitizeEscapedString (m.getD 3 ""),
                 Race := m.getD 1 "",
                 ImageURL := m.getD 2 "",
                 Featured := decide (m.getD 1 "" = resp.Creatures.Boosted.Race) }]
            else [] := by
  obtain ⟨doc, header, name, race, image, list, hload, _, _, _, _, hl, hresp⟩ :=
    TibiaCreaturesOverviewV3Impl_response E now html resp h
  subst hresp
  obtain ⟨h1, h2⟩ := eachCreature_spec E race _ [] list hl
  refine ⟨doc, hload, ?_, ?_⟩
  · simpa using h1
  · intro n hn m hm
    have hlen := h2 n hn m hm
    show creatureRecords E race n = _
    unfold creatureRecords
    rw [creatureDiv_match E race [] n m hm hlen]
    by_cases hb : len (m.getD 3 "") > 1
    · rw [if_pos hb, if_pos hb]; rfl
    · rw [if_neg hb, if_neg hb]

/-- C5 (as the code has it) on the sample creatures page. -/
theorem TibiaCreaturesOverviewV3Impl_kept_by_raw_length_witness :
    ∃ resp, TibiaCreaturesOverviewV3Impl sampleEnv 0 houndPage.source = .ok resp
      ∧ ∃ doc : sampleEnv.Doc, sampleEnv.NewDocumentFromReader houndPage.source = .ok doc
        ∧ resp.Creatures.Creatures
            = ((sampleEnv.Find doc ".BoxContent div div").map
                (creatureRecords sampleEnv resp.Creatures.Boosted.Race)).flatten
        ∧ ∀ n ∈ sampleEnv.Find doc ".BoxContent div div", ∀ m,
            firstSubmatch sampleEnv CreatureInformationRegex n = some m →
            creatureRecords sampleEnv resp.Creatures.Boosted.Race n =
              if len (m.getD 3 "") > 1 then
                [{ Name := sampleEnv.TibiaDataSanitizeEscapedString (m.getD 3 ""),
                   Race := m.getD 1 "",
                   ImageURL := m.getD 2 "",
                   Featured := decide (m.getD 1 "" = resp.Creatures.Boosted.Race) }]
              else [] :=
  ⟨_, rfl,
    TibiaCreaturesOverviewV3Impl_kept_by_raw_length sampleEnv 0 houndPage.source _ rfl⟩

/-- C5 as stated fails: the division `ampersandDiv` matches the per-creature
pattern with the raw name `&amp;`, which the sanitizer decodes to the single
character `&`, and the returned list still holds its record. -/
theorem TibiaCreaturesOverviewV3Impl_keeps_one_character_name :
    (firstSubmatch sampleEnv CreatureInformationRegex
        { inner := ampersandDiv, following := [] }).map (fun m => m.getD 3 "") = some "&amp;"
      ∧ sampleEnv.TibiaDataSanitizeEscapedString "&amp;" = "&"
      ∧ ("&" : String).length = 1 ∧ len "&" = 1
      ∧ ∃ resp, TibiaCreaturesOverviewV3Impl sampleEnv 0 ampersandPage.source = .ok resp
        ∧ resp.Creatures.Creatures.map (fun c => c.Name) = ["&", "Rat"] :=
  ⟨by decide, by decide, by decide, by decide, _, rfl, rfl⟩

/-- C6, as the code has it: when the header fragment does not match the
boosted name-and-race pattern or does not match the boosted image pattern,
`TibiaCreaturesOverviewV3Impl` returns no response; the function has the
response as its single result, so no error value reaches the caller. -/
theorem TibiaCreaturesOverviewV3Impl_no_response_without_boosted (E : Env) (now : Nat)
    (html : String) (doc : E.Doc) (header : String)
    (hload : E.NewDocumentFromReader html = .ok doc)
    (hhead : headerFragment E doc = .ok header)
    (hno : E.FindAllStringSubmatch BoostedCreatureNameAndRaceRegex header (-1) = []
      ∨ E.FindAllStringSubmatch BoostedCreatureImageRegex header (-1) = []) :
    ∀ resp, TibiaCreaturesOverviewV3Impl E now html ≠ .ok resp := by
  intro resp h
  obtain ⟨doc2, header2, name, race, image, list, hload2, hhead2, hname, _, himage, _, _⟩ :=
    TibiaCreaturesOverviewV3Impl_response E now html resp h
  rw [hload] at hload2
  simp only [Except.ok.injEq] at hload2
  subst hload2
  rw [hhead] at hhead2
  simp only [Except.ok.injEq] at hhead2
  subst hhead2
  rcases hno with h1 | h2
  · rw [h1, capture_nil] at hname; cases hname
  · rw [h2, capture_nil] at himage; cases himage

/-- C6 (as the code has it) on the sample page without a boosted creature. -/
theorem TibiaCreaturesOverviewV3Impl_no_response_without_boosted_witness :
    sampleEnv.NewDocumentFromReader plainPage.source = .ok plainPage
      ∧ headerFragment sampleEnv plainPage = .ok plainParagraph
      ∧ (sampleEnv.FindAllStringSubmatch BoostedCreatureNameAndRaceRegex plainParagraph (-1) = []
        ∨ sampleEnv.FindAllStringSubmatch BoostedCreatureImageRegex plainParagraph (-1) = [])
      ∧ ∀ resp, TibiaCreaturesOverviewV3Impl sampleEnv 0 plainPage.source ≠ .ok resp :=
  ⟨rfl, rfl, Or.inl (by decide),
    TibiaCreaturesOverviewV3Impl_no_response_without_boosted sampleEnv 0 plainPage.source
      plainPage plainParagraph rfl rfl (Or.inl (by decide))⟩

/-- C6 as stated fails: on a page whose header fragment matches neither boosted
pattern, the call does not fail with an error value surfaced to the caller: it
reads `subma1b[0]` of the empty match list and ends in the run-time panic
"index out of range". -/
theorem TibiaCreaturesOverviewV3Impl_panics_without_boosted :
    headerFragment sampleEnv plainPage = .ok plainParagraph
      ∧ sampleEnv.FindAllStringSubmatch BoostedCreatureNameAndRaceRegex plainParagraph (-1) = []
      ∧ sampleEnv.FindAllStringSubmatch BoostedCreatureImageRegex plainParagraph (-1) = []
      ∧ TibiaCreaturesOverviewV3Impl sampleEnv 0 plainPage.source
          = .error Abort.indexOutOfRange :=
  ⟨rfl, by decide, by decide, rfl⟩

/-- C7, as the code has it: when the fragment loads and neither header pattern
matches, reading the header does not fail and leaves the age, the total pages
and the total records at zero; every positive requested page is then rejected
with the page-too-big error, and a response, with the three fields zero, is
returned only for a requested page of zero or below. -/
theorem TibiaHighscoresImpl_header_without_match (E : Env) (now : Nat) (world : String)
    (category : HighscoreCategory) (vocationName : String) (currentPage : Int)
    (html : String) (doc : E.Doc)
    (hload : E.NewDocumentFromReader html = .ok doc)
    (hage : E.FindAllStringSubmatch HighscoresAgeRegex html 1 = [])
    (hpages : E.FindAllStringSubmatch HighscoresPageRegex html 1 = []) :
    getHighscoreAge E html = .ok 0
      ∧ getHighscorePages E html = .ok (0, 0)
      ∧ (0 < currentPage →
          TibiaHighscoresImpl E now world category vocationName currentPage html
            = .ok (none, some GoError.ErrorHighscorePageTooBig))
      ∧ ∀ resp e, TibiaHighscoresImpl E now world category vocationName currentPage html
            = .ok (some resp, e) →
          currentPage ≤ 0 ∧ resp.Highscores.HighscoreAge = 0
            ∧ resp.Highscores.HighscorePage.TotalPages = 0
            ∧ resp.Highscores.HighscorePage.TotalHighscores = 0 := by
  have h1 : getHighscoreAge E html = .ok 0 := by simp [getHighscoreAge, hage]
  have h2 : getHighscorePages E html = .ok (0, 0) := by simp [getHighscorePages, hpages]
  refine ⟨h1, h2, ?_, ?_⟩
  · intro hpos
    rw [TibiaHighscoresImpl_loaded E now world category vocationName currentPage html doc
      0 0 0 hload h1 h2]
    simp only [gt_iff_lt, hpos, if_true]
  · intro resp e h
    obtain ⟨_, doc2, age, tp, th, v, _, hage2, hpages2, hle, _, _, hresp⟩ :=
      TibiaHighscoresImpl_response E now world category vocationName currentPage html resp e h
    rw [h1] at hage2
    rw [h2] at hpages2
    simp only [Except.ok.injEq, Prod.mk.injEq] at hage2 hpages2
    obtain ⟨htp, hth⟩ := hpages2
    subst hage2 htp hth hresp
    exact ⟨hle, rfl, rfl, rfl⟩

/-- C7 (as the code has it) on the sample page without header texts, page 0
requested: a response is returned. -/
theorem TibiaHighscoresImpl_header_without_match_witness :
    sampleEnv.NewDocumentFromReader headlessPage.source = .ok headlessPage
      ∧ sampleEnv.FindAllStringSubmatch HighscoresAgeRegex headlessPage.source 1 = []
      ∧ sampleEnv.FindAllStringSubmatch HighscoresPageRegex headlessPage.source 1 = []
      ∧ (∃ resp, TibiaHighscoresImpl sampleEnv 0 "secura" 6 "all" 0 headlessPage.source
          = .ok (some resp, none))
      ∧ getHighscoreAge sampleEnv headlessPage.source = .ok 0
      ∧ getHighscorePages sampleEnv headlessPage.source = .ok (0, 0)
      ∧ ((0 : Int) < 0 →
          TibiaHighscoresImpl sampleEnv 0 "secura" 6 "all" 0 headlessPage.source
            = .ok (none, some GoError.ErrorHighscorePageTooBig))
      ∧ ∀ resp e, TibiaHighscoresImpl sampleEnv 0 "secura" 6 "all" 0 headlessPage.source
            = .ok (some resp, e) →
          (0 : Int) ≤ 0 ∧ resp.Highscores.HighscoreAge = 0
            ∧ resp.Highscores.HighscorePage.TotalPages = 0
            ∧ resp.Highscores.HighscorePage.TotalHighscores = 0 :=
  ⟨rfl, by decide, by decide, ⟨_, rfl⟩,
    TibiaHighscoresImpl_header_without_match sampleEnv 0 "secura" 6 "all" 0
      headlessPage.source headlessPage rfl (by decide) (by decide)⟩

/-- C7 as stated fails: on a page where neither header pattern matches, the
request for page 1 returns the page-too-big error and no response. -/
theorem TibiaHighscoresImpl_positive_page_rejected_without_header :
    sampleEnv.FindAllStringSubmatch HighscoresAgeRegex headlessPage.source 1 = []
      ∧ sampleEnv.FindAllStringSubmatch HighscoresPageRegex headlessPage.source 1 = []
      ∧ TibiaHighscoresImpl sampleEnv 0 "secura" 6 "all" 1 headlessPage.source
          = .ok (none, some GoError.ErrorHighscorePageTooBig) :=
  ⟨by decide, by decide, rfl⟩

/-- C8 fails on the code for the Boosted record: on the sample page whose
boosted creature is written `Hunter&#39;s Hound`, the raw captured name is
that text, the sanitizer gives `Hunter's Hound` for it, and the Boosted record
stores the raw text, while the creature list stores the sanitized names. -/
theorem TibiaCreaturesOverviewV3Impl_boosted_name_raw :
    capture (sampleEnv.FindAllStringSubmatch BoostedCreatureNameAndRaceRegex
        houndParagraph (-1)) 0 2 = .ok "Hunter&#39;s Hound"
      ∧ sampleEnv.TibiaDataSanitizeEscapedString "Hunter&#39;s Hound" = "Hunter's Hound"
      ∧ ∃ resp, TibiaCreaturesOverviewV3Impl sampleEnv 0 houndPage.source = .ok resp
        ∧ resp.Creatures.Boosted.Name = "Hunter&#39;s Hound"
        ∧ resp.Creatures.Boosted.Name
            ≠ sampleEnv.TibiaDataSanitizeEscapedString "Hunter&#39;s Hound"
        ∧ resp.Creatures.Creatures.map (fun c => c.Name) = ["Hunter's Hound", "Rat"] :=
  ⟨rfl, by decide, _, rfl, rfl, by decide, rfl⟩

/-- Two runs of `TibiaHighscoresImpl` on the same arguments at two clock
readings agree once the timestamp is blanked. -/
theorem TibiaHighscoresImpl_clock (E : Env) (now1 now2 : Nat) (world : String)
    (category : HighscoreCategory) (vocationName : String) (currentPage : Int)
    (html : String) :
    Except.map (fun p => (p.1.map HighscoresResponse.clearTimestamp, p.2))
        (TibiaHighscoresImpl E now1 world category vocationName currentPage html)
      = Except.map (fun p => (p.1.map HighscoresResponse.clearTimestamp, p.2))
        (TibiaHighscoresImpl E now2 world category vocationName currentPage html) := by
  unfold TibiaHighscoresImpl
  cases h1 : E.NewDocumentFromReader html with
  | error err => rfl
  | ok doc =>
    simp only []
    cases h2 : getHighscoreAge E html with
    | error a => rfl
    | ok age =>
      simp only []
      cases h3 : getHighscorePages E html with
      | error a => rfl
      | ok p =>
        obtain ⟨tp, th⟩ := p
        simp only []
        by_cases hp : currentPage > tp
        · simp only [hp, if_true]
        · simp only [hp, if_false]
          cases h4 : EachWithBreak (highscoreRow E category) (highscoreRows E doc)
              HighscoreVars.zero with
          | error a => rfl
          | ok v =>
            simp only []
            cases hi : v.insideError with
            | some ie => rfl
            | none => rfl

/-- Two runs of `TibiaCreaturesOverviewV3Impl` on the same fragment at two
clock readings agree once the timestamp is blanked. -/
theorem TibiaCreaturesOverviewV3Impl_clock (E : Env) (now1 now2 : Nat) (html : String) :
    Except.map CreaturesOverviewResponse.clearTimestamp
        (TibiaCreaturesOverviewV3Impl E now1 html)
      = Except.map CreaturesOverviewResponse.clearTimestamp
        (TibiaCreaturesOverviewV3Impl E now2 html) := by
  unfold TibiaCreaturesOverviewV3Impl
  cases h1 : E.NewDocumentFromReader html with
  | error err => rfl
  | ok doc =>
    simp only []
    cases h2 : Html (First (E.Find doc ".InnerTableContainer p")) with
    | error err => rfl
    | ok header =>
      simp only []
      cases h3 :
          capture (E.FindAllStringSubmatch BoostedCreatureNameAndRaceRegex header (-1)) 0 2 with
      | error a => rfl
      | ok name =>
        simp only []
        cases h4 :
            capture (E.FindAllStringSubmatch BoostedCreatureNameAndRaceRegex header (-1)) 0 1 with
        | error a => rfl
        | ok race =>
          simp only []
          cases h5 :
              capture (E.FindAllStringSubmatch BoostedCreatureImageRegex header (-1)) 0 1 with
          | error a => rfl
          | ok image =>
            simp only []
            cases h6 : Each (creatureDiv E race) (E.Find doc ".BoxContent div div") [] with
            | error a => rfl
            | ok list => rfl

/-- C9, as the code has it: two runs of either extractor on the same fragment
and context, at any two readings of the clock, give results that agree in
everything but the timestamp of the envelope, and the timestamp of a returned
response is what the timestamp helper gives for the clock reading of its run. -/
theorem extraction_depends_on_arguments_and_clock (E : Env) (now1 now2 : Nat) (world : String)
    (category : HighscoreCategory) (vocationName : String) (currentPage : Int)
    (html : String) :
    Except.map (fun p => (p.1.map HighscoresResponse.clearTimestamp, p.2))
        (TibiaHighscoresImpl E now1 world category vocationName currentPage html)
      = Except.map (fun p => (p.1.map HighscoresResponse.clearTimestamp, p.2))
        (TibiaHighscoresImpl E now2 world category vocationName currentPage html)
    ∧ Except.map CreaturesOverviewResponse.clearTimestamp
        (TibiaCreaturesOverviewV3Impl E now1 html)
      = Except.map CreaturesOverviewResponse.clearTimestamp
        (TibiaCreaturesOverviewV3Impl E now2 html)
    ∧ (∀ resp e, TibiaHighscoresImpl E now1 world category vocationName currentPage html
          = .ok (some resp, e) →
        resp.Information.Timestamp = E.TibiaDataDatetime now1 "")
    ∧ (∀ resp, TibiaCreaturesOverviewV3Impl E now1 html = .ok resp →
        resp.Information.Timestamp = E.TibiadataDatetimeV3 now1 "") := by
  refine ⟨TibiaHighscoresImpl_clock E now1 now2 world category vocationName currentPage html,
    TibiaCreaturesOverviewV3Impl_clock E now1 now2 html, ?_, ?_⟩
  · intro resp e h
    obtain ⟨_, _, _, _, _, _, _, _, _, _, _, _, hresp⟩ :=
      TibiaHighscoresImpl_response E now1 world category vocationName currentPage html resp e h
    rw [hresp]
  · intro resp h
    obtain ⟨_, _, _, _, _, _, _, _, _, _, _, _, hresp⟩ :=
      TibiaCreaturesOverviewV3Impl_response E now1 html resp h
    rw [hresp]

/-- C9 as stated fails: with the timestamp helper giving the current time, two
runs on the same fragment and context at different clock readings give
different responses, for either extractor. -/
theorem extraction_differs_with_clock :
    TibiaHighscoresImpl sampleEnv 0 "secura" 6 "all" 1 experiencePage.source
        ≠ TibiaHighscoresImpl sampleEnv 1 "secura" 6 "all" 1 experiencePage.source
      ∧ TibiaCreaturesOverviewV3Impl sampleEnv 0 houndPage.source
        ≠ TibiaCreaturesOverviewV3Impl sampleEnv 1 houndPage.source := by
  constructor
  · intro h
    have h2 := congrArg (fun r => match r with
      | Except.ok (some resp, _) => resp.Information.Timestamp
      | _ => "") h
    revert h2
    decide
  · intro h
    have h2 := congrArg (fun r => match r with
      | Except.ok resp => resp.Information.Timestamp
      | _ => "") h
    revert h2
    decide

/-- C10: every return of `TibiaHighscoresImpl` gives exactly one of a response
and an error: a nil response with a non-nil error (the load failure, the
page-too-big value or the row markup failure, the latter two built by
`fmt.Errorf`), or a response with a nil error. -/
theorem TibiaHighscoresImpl_response_xor_error (E : Env) (now : Nat) (world : String)
    (category : HighscoreCategory) (vocationName : String) (currentPage : Int)
    (html : String) (r : Option HighscoresResponse) (e : Option GoError)
    (h : TibiaHighscoresImpl E now world category vocationName currentPage html = .ok (r, e)) :
    (r = none ∧ (e = some GoError.ErrorHighscorePageTooBig ∨ ∃ msg, e = some (GoError.errorf msg)))
      ∨ (∃ resp, r = some resp) ∧ e = none := by
  cases r with
  | some resp =>
    right
    exact ⟨⟨resp, rfl⟩,
      (TibiaHighscoresImpl_response E now world category vocationName currentPage html resp e
        h).1⟩
  | none =>
    left
    refine ⟨rfl, ?_⟩
    cases hload : E.NewDocumentFromReader html with
    | error err =>
      simp only [TibiaHighscoresImpl, hload, Except.ok.injEq, Prod.mk.injEq, true_and] at h
      exact Or.inr ⟨_, h.symm⟩
    | ok doc =>
      cases hage : getHighscoreAge E html with
      | error a => simp [TibiaHighscoresImpl, hload, hage] at h
      | ok age =>
        cases hpages : getHighscorePages E html with
        | error a => simp [TibiaHighscoresImpl, hload, hage, hpages] at h
        | ok p =>
          obtain ⟨tp, th⟩ := p
          rw [TibiaHighscoresImpl_loaded E now world category vocationName currentPage html doc
            age tp th hload hage hpages] at h
          by_cases hp : currentPage > tp
          · simp only [hp, if_true, Except.ok.injEq, Prod.mk.injEq, true_and] at h
            exact Or.inl h.symm
          · simp only [hp, if_false] at h
            cases hl : EachWithBreak (highscoreRow E category) (highscoreRows E doc)
                HighscoreVars.zero with
            | error a => rw [hl] at h; simp at h
            | ok v =>
              rw [hl] at h
              rcases eachRow_spec E category _ _ v (titleUnset_zero E category) rfl hl with
                ⟨h1, _⟩ | ⟨⟨msg, h4⟩, _⟩
              · simp [h1] at h
              · simp only [h4, Except.ok.injEq, Prod.mk.injEq, true_and] at h
                exact Or.inr ⟨msg, h.symm⟩

/-- C10 on the experience sample page, page 3 of 2 requested. -/
theorem TibiaHighscoresImpl_response_xor_error_witness :
    TibiaHighscoresImpl sampleEnv 0 "secura" 6 "all" 3 experiencePage.source
        = .ok (none, some GoError.ErrorHighscorePageTooBig)
      ∧ (((none : Option HighscoresResponse) = none
          ∧ (some GoError.ErrorHighscorePageTooBig = some GoError.ErrorHighscorePageTooBig
            ∨ ∃ msg, some GoError.ErrorHighscorePageTooBig = some (GoError.errorf msg)))
        ∨ (∃ resp : HighscoresResponse, none = some resp)
          ∧ some GoError.ErrorHighscorePageTooBig = none) :=
  ⟨rfl, TibiaHighscoresImpl_response_xor_error sampleEnv 0 "secura" 6 "all" 3
    experiencePage.source none (some GoError.ErrorHighscorePageTooBig) rfl⟩

/-- Under the arity contract `TibiaHighscoresImpl` always returns. -/
theorem TibiaHighscoresImpl_returns (E : Env) (hE : SubmatchArity E) (now : Nat)
    (world : String) (category : HighscoreCategory) (vocationName : String)
    (currentPage : Int) (html : String) :
    ∃ r e, TibiaHighscoresImpl E now world category vocationName currentPage html
      = .ok (r, e) := by
  cases hload : E.NewDocumentFromReader html with
  | error err => exact ⟨_, _, by simp only [TibiaHighscoresImpl, hload]; rfl⟩
  | ok doc =>
    obtain ⟨age, hage⟩ := getHighscoreAge_ok E hE html
    obtain ⟨⟨tp, th⟩, hpages⟩ := getHighscorePages_ok E hE html
    rw [TibiaHighscoresImpl_loaded E now world category vocationName currentPage html doc
      age tp th hload hage hpages]
    by_cases hp : currentPage > tp
    · exact ⟨_, _, by simp only [hp, if_true]; rfl⟩
    · obtain ⟨v, hl⟩ := eachRow_returns E category (highscoreRows E doc) HighscoreVars.zero
        (fun n _ => rowReadable_of_arity E hE category n)
      simp only [hp, if_false, hl]
      cases hi : v.insideError with
      | some ie => exact ⟨_, _, rfl⟩
      | none => exact ⟨_, _, rfl⟩

/-! ## The integer helper modelled from the spec -/

theorem digitsValue_of_not_digits :
    ∀ (cs : List Char) (acc : Nat), cs.all Char.isDigit = false → digitsValue cs acc = none := by
  intro cs
  induction cs with
  | nil => intro acc h; simp at h
  | cons c cs ih =>
    intro acc h
    unfold digitsValue
    by_cases hc : c.isDigit = true
    · rw [if_pos hc]
      apply ih
      simpa [hc] using h
    · rw [if_neg hc]

theorem digitsValue_sign (c : Char) (cs : List Char) (acc : Nat) (hc : c.isDigit = false) :
    digitsValue (c :: cs) acc = none := by
  unfold digitsValue
  simp [hc]

/-- The integer helper modelled from the spec gives 0 on every text it cannot
coerce. -/
theorem stringToInteger_zero_on_failure (text : String) (h : isIntegerText text = false) :
    stringToInteger text = 0 := by
  unfold isIntegerText at h
  unfold stringToInteger
  generalize text.data.filter (fun c => c != ',') = l at h ⊢
  rcases l with _ | ⟨c, cs⟩
  · rfl
  · by_cases hm : c = '-'
    · subst hm
      rcases cs with _ | ⟨d, ds⟩
      · rfl
      · simp only [List.isEmpty_cons, Bool.not_false, Bool.true_and] at h
        simp only [digitsValue_of_not_digits (d :: ds) 0 h]
    · by_cases hp : c = '+'
      · subst hp
        have : digitsValue ('+' :: cs) 0 = none := digitsValue_sign '+' cs 0 (by decide)
        simp [this]
      · have hall : (c :: cs).all Char.isDigit = false := by
          simpa [hm, hp] using h
        have : digitsValue (c :: cs) 0 = none := digitsValue_of_not_digits (c :: cs) 0 hall
        simp [this, hm]

theorem sampleEnv_zero_on_failure : ZeroOnFailure sampleEnv :=
  fun text h => stringToInteger_zero_on_failure text h

/-! ## Row-level tolerance -/

/-- The row loop breaks only on a row whose markup cannot be retrieved. -/
theorem highscoreRow_break_markup (E : Env) (category : HighscoreCategory)
    (v v2 : HighscoreVars) (n : E.Node)
    (h : highscoreRow E category v [n] = .ok (v2, false)) :
    ∃ err, E.innerHtml n = .error err := by
  cases hh : E.innerHtml n with
  | error err => exact ⟨err, rfl⟩
  | ok markup =>
    cases hm : rowSubmatch E category markup with
    | nil =>
      rw [highscoreRow_no_match E category v n markup hh hm] at h
      simp at h
    | cons m rest =>
      rw [highscoreRow_match E category v n markup hh m rest hm] at h
      cases ha : assembleRow E category v (m :: rest) with
      | error a => rw [ha] at h; simp at h
      | ok v3 => rw [ha] at h; simp at h

/-- The row loop records an error only when the markup of some row cannot be
retrieved. -/
theorem eachRow_no_error (E : Env) (category : HighscoreCategory) :
    ∀ (rows : Selection E) (v v2 : HighscoreVars), TitleUnset E category v →
      (∀ n ∈ rows, ∃ markup, E.innerHtml n = .ok markup) →
      EachWithBreak (highscoreRow E category) rows v = .ok v2 →
      v2.insideError = v.insideError := by
  intro rows
  induction rows with
  | nil =>
    intro v v2 _ _ h
    simp only [EachWithBreak, Except.ok.injEq] at h
    rw [h]
  | cons n rest ih =>
    intro v v2 hv hm h
    simp only [EachWithBreak] at h
    cases hs : highscoreRow E category v [n] with
    | error a => rw [hs] at h; simp at h
    | ok p =>
      obtain ⟨v3, b⟩ := p
      rw [hs] at h
      cases b with
      | false =>
        obtain ⟨err, herr⟩ := highscoreRow_break_markup E category v v3 n hs
        obtain ⟨markup, hmk⟩ := hm n (List.mem_cons_self _ _)
        rw [hmk] at herr
        cases herr
      | true =>
        simp only at h
        obtain ⟨_, he3, hv3⟩ := highscoreRow_continue E category v v3 n hv hs
        rw [ih v3 v2 hv3 (fun k hk => hm k (List.mem_cons_of_mem _ hk)) h, he3]

/-- When the row loop ends without a recorded error, the markup of every row
could be retrieved. -/
theorem eachRow_markup (E : Env) (category : HighscoreCategory) :
    ∀ (rows : Selection E) (v v2 : HighscoreVars),
      EachWithBreak (highscoreRow E category) rows v = .ok v2 → v2.insideError = none →
      ∀ n ∈ rows, ∃ markup, E.innerHtml n = .ok markup := by
  intro rows
  induction rows with
  | nil => intro v v2 _ _ n hn; cases hn
  | cons k rest ih =>
    intro v v2 h he n hn
    simp only [EachWithBreak] at h
    cases hs : highscoreRow E category v [k] with
    | error a => rw [hs] at h; simp at h
    | ok p =>
      obtain ⟨v3, b⟩ := p
      rw [hs] at h
      cases b with
      | false =>
        simp only [Except.ok.injEq] at h
        subst h
        obtain ⟨⟨msg, hmsg⟩, _⟩ := highscoreRow_break E category v v3 k hs
        rw [he] at hmsg
        cases hmsg
      | true =>
        simp only at h
        rcases List.mem_cons.mp hn with rfl | hn2
        · cases hh : E.innerHtml n with
          | error err =>
            rw [highscoreRow_html_error E category v n err hh] at hs
            simp at hs
          | ok markup => exact ⟨markup, rfl⟩
        · exact ih v3 v2 h he n hn2

/-- The numeric fields of the record of a matching row are the values of the
integer helper on the captured texts. -/
theorem rowRecords_numeric (E : Env) (category : HighscoreCategory) (n : E.Node)
    (m : List String) (hm : rowMatch E category n = some m)
    (hr : RowReadable E category n) :
    ∃ r, rowRecords E category n = [r]
      ∧ r.Rank = E.TibiaDataStringToInteger (m.getD 1 "")
      ∧ r.Level = E.TibiaDataStringToInteger (m.getD (lastCapture E category - 1) "")
      ∧ r.Value = E.TibiaDataStringToInteger (m.getD (lastCapture E category) "") := by
  have hl := hr m hm
  by_cases hc : category = E.HighScoreLoyaltypoints
  · subst hc
    rw [lastCapture_loyalty] at hl ⊢
    exact ⟨_, rowRecords_loyalty E n m hm hl, rfl, rfl, rfl⟩
  · rw [lastCapture_other E category hc] at hl ⊢
    exact ⟨_, rowRecords_other E category hc n m hm hl, rfl, rfl, rfl⟩

/-- C11: row-level tolerance.  When the fragment loads, the requested page is
in range and the markup of every visited row can be retrieved, the call
returns a response whatever the rows hold: a row the pattern of the category
does not match contributes no record, and a row it matches contributes exactly
one record, whose rank, level and value are the integer helper's values on the
captured texts, hence 0 for a text the helper cannot coerce. -/
theorem TibiaHighscoresImpl_row_tolerance (E : Env) (hE : SubmatchArity E)
    (hZ : ZeroOnFailure E) (now : Nat) (world : String) (category : HighscoreCategory)
    (vocationName : String) (currentPage : Int) (html : String) (doc : E.Doc)
    (hload : E.NewDocumentFromReader html = .ok doc)
    (hpage : currentPage ≤ totalPages E html)
    (hmarkup : ∀ n ∈ highscoreRows E doc, ∃ markup, E.innerHtml n = .ok markup) :
    ∃ resp, TibiaHighscoresImpl E now world category vocationName currentPage html
        = .ok (some resp, none)
      ∧ resp.Highscores.HighscoreList
          = ((highscoreRows E doc).map (rowRecords E category)).flatten
      ∧ ∀ n ∈ highscoreRows E doc,
          (rowMatch E category n = none → rowRecords E category n = [])
          ∧ ∀ m, rowMatch E category n = some m →
              ∃ r, rowRecords E category n = [r]
                ∧ r.Rank = E.TibiaDataStringToInteger (m.getD 1 "")
                ∧ r.Level = E.TibiaDataStringToInteger (m.getD (lastCapture E category - 1) "")
                ∧ r.Value = E.TibiaDataStringToInteger (m.getD (lastCapture E category) "")
                ∧ (isIntegerText (m.getD 1 "") = false → r.Rank = 0)
                ∧ (isIntegerText (m.getD (lastCapture E category - 1) "") = false → r.Level = 0)
                ∧ (isIntegerText (m.getD (lastCapture E category) "") = false
                    → r.Value = 0) := by
  obtain ⟨age, hage⟩ := getHighscoreAge_ok E hE html
  obtain ⟨⟨tp, th⟩, hpages⟩ := getHighscorePages_ok E hE html
  have htp : totalPages E html = tp := by simp only [totalPages, hpages]
  rw [htp] at hpage
  have hread : ∀ n ∈ highscoreRows E doc, RowReadable E category n :=
    fun n _ => rowReadable_of_arity E hE category n
  obtain ⟨v, hl⟩ := eachRow_returns E category (highscoreRows E doc) HighscoreVars.zero hread
  have hnone : v.insideError = none :=
    eachRow_no_error E category _ _ v (titleUnset_zero E category) hmarkup hl
  have hdata : v.HighscoreData
      = ((highscoreRows E doc).map (rowRecords E category)).flatten := by
    rcases eachRow_spec E category _ _ v (titleUnset_zero E category) rfl hl with
      ⟨_, h2, _, _⟩ | ⟨⟨msg, h5⟩, _⟩
    · simpa [HighscoreVars.zero] using h2
    · rw [hnone] at h5; cases h5
  refine ⟨{
      Highscores := {
        World := E.casesTitle world,
        Category := E.categoryString category,
        Vocation := vocationName,
        HighscoreAge := age,
        HighscoreList := v.HighscoreData,
        HighscorePage := {
          CurrentPage := currentPage,
          TotalPages := tp,
          TotalHighscores := th } },
      Information := {
        APIDetails := E.TibiaDataAPIDetails,
        Timestamp := E.TibiaDataDatetime now "",
        Status := { HTTPCode := StatusOK } } }, ?_, hdata, ?_⟩
  · rw [TibiaHighscoresImpl_loaded E now world category vocationName currentPage html doc
      age tp th hload hage hpages]
    have hp : ¬ currentPage > tp := by omega
    simp only [hp, if_false, hl, hnone]
  · intro n hn
    refine ⟨rowRecords_of_no_match E category n, ?_⟩
    intro m hm
    obtain ⟨r, hr, h1, h2, h3⟩ := rowRecords_numeric E category n m hm (hread n hn)
    exact ⟨r, hr, h1, h2, h3, fun hf => by rw [h1, hZ _ hf], fun hf => by rw [h2, hZ _ hf],
      fun hf => by rw [h3, hZ _ hf]⟩

/-- C11 on the mixed sample page: the separator row gives no record and the
player without numbers gives a record with rank 0 and value 0. -/
theorem TibiaHighscoresImpl_row_tolerance_witness :
    SubmatchArity sampleEnv ∧ ZeroOnFailure sampleEnv
      ∧ sampleEnv.NewDocumentFromReader mixedPage.source = .ok mixedPage
      ∧ (1 : Int) ≤ totalPages sampleEnv mixedPage.source
      ∧ (∀ n ∈ highscoreRows sampleEnv mixedPage, ∃ markup, sampleEnv.innerHtml n = .ok markup)
      ∧ (highscoreRows sampleEnv mixedPage).map (fun n => (rowMatch sampleEnv 6 n).isSome)
          = [true, false, true]
      ∧ TibiaHighscoresImpl sampleEnv 0 "secura" 6 "all" 1 mixedPage.source
          = .ok (some mixedResponse, none)
      ∧ ∃ resp, TibiaHighscoresImpl sampleEnv 0 "secura" 6 "all" 1 mixedPage.source
          = .ok (some resp, none)
        ∧ resp.Highscores.HighscoreList
            = ((highscoreRows sampleEnv mixedPage).map (rowRecords sampleEnv 6)).flatten
        ∧ ∀ n ∈ highscoreRows sampleEnv mixedPage,
            (rowMatch sampleEnv 6 n = none → rowRecords sampleEnv 6 n = [])
            ∧ ∀ m, rowMatch sampleEnv 6 n = some m →
                ∃ r, rowRecords sampleEnv 6 n = [r]
                  ∧ r.Rank = sampleEnv.TibiaDataStringToInteger (m.getD 1 "")
                  ∧ r.Level
                      = sampleEnv.TibiaDataStringToInteger (m.getD (lastCapture sampleEnv 6 - 1) "")
                  ∧ r.Value
                      = sampleEnv.TibiaDataStringToInteger (m.getD (lastCapture sampleEnv 6) "")
                  ∧ (isIntegerText (m.getD 1 "") = false → r.Rank = 0)
                  ∧ (isIntegerText (m.getD (lastCapture sampleEnv 6 - 1) "") = false
                      → r.Level = 0)
                  ∧ (isIntegerText (m.getD (lastCapture sampleEnv 6) "") = false
                      → r.Value = 0) :=
  ⟨sampleEnv_arity, sampleEnv_zero_on_failure, rfl, by decide, fun n _ => ⟨n.inner, rfl⟩,
    by decide, rfl,
    TibiaHighscoresImpl_row_tolerance sampleEnv sampleEnv_arity sampleEnv_zero_on_failure 0
      "secura" 6 "all" 1 mixedPage.source mixedPage rfl (by decide)
      (fun n _ => ⟨n.inner, rfl⟩)⟩

/-! ## Record assembly -/

theorem rowMatch_some (E : Env) (category : HighscoreCategory) (n : E.Node) (m : List String)
    (h : rowMatch E category n = some m) :
    ∃ markup rest, E.innerHtml n = .ok markup ∧ rowSubmatch E category markup = m :: rest := by
  cases hh : E.innerHtml n with
  | error err => rw [rowMatch_of_html_error E _ n err hh] at h; simp at h
  | ok markup =>
    rw [rowMatch_of_markup E _ n markup hh] at h
    cases hm : rowSubmatch E category markup with
    | nil => rw [hm] at h; simp at h
    | cons m2 rest =>
      rw [hm] at h
      simp only [List.head?_cons, Option.some.injEq] at h
      subst h
      exact ⟨markup, rest, rfl, hm⟩

/-- C12: record assembly by position.  In a call, where the title variable
still has its zero value unless the category is loyalty points, a row whose
six-column match captured (rank, name, vocation, world, level, value) appends
the record with Rank = toInt(rank), Name = sanitize(name), Vocation, World,
Level = toInt(level), Value = toInt(value) and an empty Title; for the loyalty
category the seven-column captures (rank, name, title, vocation, world, level,
value) are assigned likewise, with Title = title. -/
theorem highscoreRow_assembles_by_position (E : Env) (category : HighscoreCategory)
    (v : HighscoreVars) (n : E.Node) (hv : TitleUnset E category v) :
    (category ≠ E.HighScoreLoyaltypoints →
      ∀ whole rank name vocation world level value : String,
        firstSubmatch E SixColumnRegex n
            = some [whole, rank, name, vocation, world, level, value] →
        ∃ v2, highscoreRow E category v [n] = .ok (v2, true)
          ∧ v2.HighscoreData = v.HighscoreData ++ [{
              Rank := E.TibiaDataStringToInteger rank,
              Name := E.TibiaDataSanitizeEscapedString name,
              Vocation := vocation,
              World := world,
              Level := E.TibiaDataStringToInteger level,
              Value := E.TibiaDataStringToInteger value,
              Title := "" }])
    ∧ (category = E.HighScoreLoyaltypoints →
      ∀ whole rank name title vocation world level value : String,
        firstSubmatch E SevenColumnRegex n
            = some [whole, rank, name, title, vocation, world, level, value] →
        ∃ v2, highscoreRow E category v [n] = .ok (v2, true)
          ∧ v2.HighscoreData = v.HighscoreData ++ [{
              Rank := E.TibiaDataStringToInteger rank,
              Name := E.TibiaDataSanitizeEscapedString name,
              Vocation := vocation,
              World := world,
              Level := E.TibiaDataStringToInteger level,
              Value := E.TibiaDataStringToInteger value,
              Title := title }]) := by
  constructor
  · intro hc whole rank name vocation world level value hm
    rw [← rowMatch_other E category hc n] at hm
    obtain ⟨markup, rest, hh, hs⟩ := rowMatch_some E category n _ hm
    rw [highscoreRow_match E category v n markup hh _ rest hs,
      assembleRow_other E category hc v _ rest (by simp)]
    refine ⟨_, rfl, ?_⟩
    show v.HighscoreData ++ [_] = _
    rw [hv hc]
    rfl
  · intro hc whole rank name title vocation world level value hm
    subst hc
    rw [← rowMatch_loyalty E n] at hm
    obtain ⟨markup, rest, hh, hs⟩ := rowMatch_some E _ n _ hm
    rw [highscoreRow_match E _ v n markup hh _ rest hs,
      assembleRow_loyalty E v _ rest (by simp)]
    exact ⟨_, rfl, rfl⟩

/-- C12 on the row with cells 3, Gandalf, Druid, Secura, 250, 9001. -/
theorem highscoreRow_assembles_by_position_witness :
    TitleUnset sampleEnv 6 HighscoreVars.zero
      ∧ firstSubmatch sampleEnv SixColumnRegex { inner := rowGandalf, following := [rowBubble] }
          = some [rowGandalf, "3", "Gandalf", "Druid", "Secura", "250", "9001"]
      ∧ ∃ v2, highscoreRow sampleEnv 6 HighscoreVars.zero
            [{ inner := rowGandalf, following := [rowBubble] }] = .ok (v2, true)
          ∧ v2.HighscoreData = [{
              Rank := 3, Name := "Gandalf", Vocation := "Druid", World := "Secura",
              Level := 250, Value := 9001, Title := "" }] :=
  ⟨titleUnset_zero sampleEnv 6, rfl,
    (highscoreRow_assembles_by_position sampleEnv 6 HighscoreVars.zero
      { inner := rowGandalf, following := [rowBubble] } (titleUnset_zero sampleEnv 6)).1
      (by decide) rowGandalf "3" "Gandalf" "Druid" "Secura" "250" "9001" rfl⟩

/-! ## The page and result counts of the header -/

theorem countFrom_nil (substr : List Char) (skip : Nat) : countFrom substr skip [] = 0 := by
  cases skip <;> rfl

/-- Characters covered by the occurrence found last are passed over. -/
theorem countFrom_skip (substr : List Char) :
    ∀ (pre s : List Char), countFrom substr pre.length (pre ++ s) = countFrom substr 0 s := by
  intro pre
  induction pre with
  | nil => intro s; rfl
  | cons c cs ih =>
    intro s
    show countFrom substr (cs.length + 1) (c :: (cs ++ s)) = _
    rw [countFrom]
    exact ih s

/-- An occurrence at the head of the text counts once, and counting goes on
after it. -/
theorem countFrom_occurrence (c : Char) (cs s : List Char) :
    countFrom (c :: cs) 0 ((c :: cs) ++ s) = 1 + countFrom (c :: cs) 0 s := by
  show countFrom (c :: cs) 0 (c :: (cs ++ s)) = _
  rw [countFrom]
  have hp : (c :: cs).isPrefixOf (c :: (cs ++ s)) = true := by simp
  rw [if_pos hp]
  have : (c :: cs).length - 1 = cs.length := by simp
  rw [this, countFrom_skip]

/-- A character at which no occurrence starts is passed over. -/
theorem countFrom_no_occurrence (substr : List Char) (c : Char) (s : List Char)
    (h : substr.isPrefixOf (c :: s) = false) :
    countFrom substr 0 (c :: s) = countFrom substr 0 s := by
  rw [countFrom]
  simp [h]

/-- C13: when the pages-and-results pattern matches the fragment, capturing
the Pages text and the Results text, the total number of pages is the number
of non-overlapping occurrences of the token `class="PageLink` in the Pages
text and the total number of records is the integer helper's value on the
Results text, both in the header reading and in every returned response. -/
theorem TibiaHighscoresImpl_page_counts (E : Env) (now : Nat) (world : String)
    (category : HighscoreCategory) (vocationName : String) (currentPage : Int)
    (html whole pages results : String) (rest : List (List String))
    (hm : E.FindAllStringSubmatch HighscoresPageRegex html 1 = [whole, pages, results] :: rest) :
    getHighscorePages E html
        = .ok ((stringsCount pages "class=\"PageLink" : Nat), E.TibiaDataStringToInteger results)
      ∧ ∀ resp e, TibiaHighscoresImpl E now world category vocationName currentPage html
            = .ok (some resp, e) →
          resp.Highscores.HighscorePage.TotalPages = (stringsCount pages "class=\"PageLink" : Nat)
            ∧ resp.Highscores.HighscorePage.TotalHighscores
                = E.TibiaDataStringToInteger results := by
  have hp : getHighscorePages E html
      = .ok ((stringsCount pages "class=\"PageLink" : Nat),
          E.TibiaDataStringToInteger results) := by
    simp [getHighscorePages, hm, capture, index]
  refine ⟨hp, ?_⟩
  intro resp e h
  obtain ⟨_, doc, age, tp, th, v, _, _, hpages, _, _, _, hresp⟩ :=
    TibiaHighscoresImpl_response E now world category vocationName currentPage html resp e h
  rw [hp] at hpages
  simp only [Except.ok.injEq, Prod.mk.injEq] at hpages
  obtain ⟨h1, h2⟩ := hpages
  subst hresp
  exact ⟨h1.symm, h2.symm⟩

/-- C13 on the experience sample page: two page links and the Results text
`1,234` give 2 pages and 1234 records. -/
theorem TibiaHighscoresImpl_page_counts_witness :
    sampleEnv.FindAllStringSubmatch HighscoresPageRegex experiencePage.source 1
        = [experiencePage.source, samplePagesText, "1,234"] :: []
      ∧ stringsCount samplePagesText "class=\"PageLink" = 2
      ∧ (∃ resp, TibiaHighscoresImpl sampleEnv 0 "secura" 6 "all" 1 experiencePage.source
            = .ok (some resp, none))
      ∧ getHighscorePages sampleEnv experiencePage.source = .ok (2, 1234)
      ∧ ∀ resp e, TibiaHighscoresImpl sampleEnv 0 "secura" 6 "all" 1 experiencePage.source
            = .ok (some resp, e) →
          resp.Highscores.HighscorePage.TotalPages = 2
            ∧ resp.Highscores.HighscorePage.TotalHighscores = 1234 :=
  ⟨by decide, by decide, ⟨_, rfl⟩,
    TibiaHighscoresImpl_page_counts sampleEnv 0 "secura" 6 "all" 1 experiencePage.source
      experiencePage.source samplePagesText "1,234" [] (by decide)⟩

/-! ## Independence of the rows -/

/-- When the markup of every row can be retrieved and its captures read, the
extracted list is made of the records of the rows, in order. -/
theorem extractList_of_good (E : Env) (category : HighscoreCategory) (rows : Selection E)
    (hmarkup : ∀ n ∈ rows, ∃ markup, E.innerHtml n = .ok markup)
    (hread : ∀ n ∈ rows, RowReadable E category n) :
    extractList E category rows = some ((rows.map (rowRecords E category)).flatten) := by
  obtain ⟨v, hl⟩ := eachRow_returns E category rows HighscoreVars.zero hread
  have hnone : v.insideError = none :=
    eachRow_no_error E category _ _ v (titleUnset_zero E category) hmarkup hl
  rcases eachRow_spec E category _ _ v (titleUnset_zero E category) rfl hl with
    ⟨_, h2, _, _⟩ | ⟨⟨msg, h5⟩, _⟩
  · have hdata : v.HighscoreData = (rows.map (rowRecords E category)).flatten := by
      simpa [HighscoreVars.zero] using h2
    simp only [extractList, hl, hnone, if_true, hdata]
  · rw [hnone] at h5; cases h5

/-- An extracted list is made of the records of the rows, in order; the markup
of every row could be retrieved and its captures read. -/
theorem extractList_some (E : Env) (category : HighscoreCategory) (rows : Selection E)
    (l : List Highscore) (h : extractList E category rows = some l) :
    l = (rows.map (rowRecords E category)).flatten
      ∧ (∀ n ∈ rows, ∃ markup, E.innerHtml n = .ok markup)
      ∧ ∀ n ∈ rows, RowReadable E category n := by
  unfold extractList at h
  cases hl : EachWithBreak (highscoreRow E category) rows HighscoreVars.zero with
  | error a => rw [hl] at h; simp at h
  | ok v =>
    rw [hl] at h
    by_cases hn : v.insideError = none
    · simp only [hn, if_true, Option.some.injEq] at h
      rcases eachRow_spec E category _ _ v (titleUnset_zero E category) rfl hl with
        ⟨_, h2, _, h4⟩ | ⟨⟨msg, h5⟩, _⟩
      · refine ⟨?_, eachRow_markup E category _ _ v hl hn, h4⟩
        rw [← h]
        simpa [HighscoreVars.zero] using h2
      · rw [hn] at h5; cases h5
    · simp [hn] at h

/-- C14: for a fixed category, an extracted list is made of the records of the
rows, each built from its own row alone, and the list extracted from
`rows1 ++ rows2` is the list extracted from `rows1` followed by the list
extracted from `rows2` (no list is extracted when a row of either part fails);
the list of a returned response is the list extracted from the visited rows. -/
theorem extractList_append (E : Env) (category : HighscoreCategory) (rows1 rows2 : Selection E) :
    (extractList E category (rows1 ++ rows2) =
      match extractList E category rows1, extractList E category rows2 with
      | some l1, some l2 => some (l1 ++ l2)
      | _, _ => none)
    ∧ (∀ (rows : Selection E) (l : List Highscore), extractList E category rows = some l →
        l = (rows.map (rowRecords E category)).flatten)
    ∧ ∀ (now : Nat) (world vocationName : String) (currentPage : Int) (html : String)
        (resp : HighscoresResponse) (e : Option GoError),
        TibiaHighscoresImpl E now world category vocationName currentPage html
            = .ok (some resp, e) →
        ∃ doc : E.Doc, E.NewDocumentFromReader html = .ok doc
          ∧ extractList E category (highscoreRows E doc)
              = some resp.Highscores.HighscoreList := by
  refine ⟨?_, fun rows l h => (extractList_some E category rows l h).1, ?_⟩
  · cases h1 : extractList E category rows1 with
    | none =>
      cases h12 : extractList E category (rows1 ++ rows2) with
      | none => rfl
      | some l =>
        obtain ⟨_, hm, hr⟩ := extractList_some E category _ l h12
        rw [extractList_of_good E category rows1
          (fun n hn => hm n (List.mem_append_left _ hn))
          (fun n hn => hr n (List.mem_append_left _ hn))] at h1
        cases h1
    | some l1 =>
      obtain ⟨hl1, hm1, hr1⟩ := extractList_some E category rows1 l1 h1
      cases h2 : extractList E category rows2 with
      | none =>
        cases h12 : extractList E category (rows1 ++ rows2) with
        | none => rfl
        | some l =>
          obtain ⟨_, hm, hr⟩ := extractList_some E category _ l h12
          rw [extractList_of_good E category rows2
            (fun n hn => hm n (List.mem_append_right _ hn))
            (fun n hn => hr n (List.mem_append_right _ hn))] at h2
          cases h2
      | some l2 =>
        obtain ⟨hl2, hm2, hr2⟩ := extractList_some E category rows2 l2 h2
        rw [extractList_of_good E category (rows1 ++ rows2)
          (fun n hn => (List.mem_append.mp hn).elim (hm1 n) (hm2 n))
          (fun n hn => (List.mem_append.mp hn).elim (hr1 n) (hr2 n))]
        simp only [List.map_append, List.flatten_append, hl1, hl2]
  · intro now world vocationName currentPage html resp e h
    obtain ⟨_, doc, age, tp, th, v, hload, _, _, _, hl, hi, hresp⟩ :=
      TibiaHighscoresImpl_response E now world category vocationName currentPage html resp e h
    refine ⟨doc, hload, ?_⟩
    simp only [extractList, hl, hi, if_true, hresp]

/-- C14 on the experience sample page: the list of its two player rows is the
list of the first followed by the list of the second. -/
theorem extractList_append_witness :
    extractList sampleEnv 6 [{ inner := rowGandalf, following := [rowBubble] }]
        = some [{ Rank := 3, Name := "Gandalf", Vocation := "Druid", World := "Secura",
                  Level := 250, Value := 9001, Title := "" }]
      ∧ extractList sampleEnv 6 [{ inner := rowBubble, following := [] }]
        = some [{ Rank := 4, Name := "Bubble", Vocation := "Knight", World := "Antica",
                  Level := 300, Value := 8000, Title := "" }]
      ∧ extractList sampleEnv 6 ([{ inner := rowGandalf, following := [rowBubble] }]
            ++ [{ inner := rowBubble, following := [] }])
        = (match extractList sampleEnv 6 [{ inner := rowGandalf, following := [rowBubble] }],
            extractList sampleEnv 6 [{ inner := rowBubble, following := [] }] with
          | some l1, some l2 => some (l1 ++ l2)
          | _, _ => none) :=
  ⟨rfl, rfl,
    (extractList_append sampleEnv 6 [{ inner := rowGandalf, following := [rowBubble] }]
      [{ inner := rowBubble, following := [] }]).1⟩

/-! ## The page of a response -/

theorem getHighscorePages_nonneg (E : Env) (html : String) (tp th : Int)
    (h : getHighscorePages E html = .ok (tp, th)) : 0 ≤ tp := by
  unfold getHighscorePages at h
  by_cases hlen : (E.FindAllStringSubmatch HighscoresPageRegex html 1).length > 0
  · simp only [hlen, if_true] at h
    cases h1 : capture (E.FindAllStringSubmatch HighscoresPageRegex html 1) 0 1 with
    | error a => rw [h1] at h; simp at h
    | ok pages =>
      rw [h1] at h
      cases h2 : capture (E.FindAllStringSubmatch HighscoresPageRegex html 1) 0 2 with
      | error a => rw [h2] at h; simp at h
      | ok results =>
        rw [h2] at h
        simp only [Except.ok.injEq, Prod.mk.injEq] at h
        rw [← h.1]
        exact Int.ofNat_nonneg _
  · simp only [hlen, if_false, Except.ok.injEq, Prod.mk.injEq] at h
    rw [← h.1]

/-- A request for a page within range, on a fragment that loads and whose row
markup can be retrieved, returns a response that echoes the page. -/
theorem TibiaHighscoresImpl_in_range (E : Env) (hE : SubmatchArity E) (now : Nat)
    (world : String) (category : HighscoreCategory) (vocationName : String)
    (currentPage : Int) (html : String) (doc : E.Doc)
    (hload : E.NewDocumentFromReader html = .ok doc)
    (hpage : currentPage ≤ totalPages E html)
    (hmarkup : ∀ n ∈ highscoreRows E doc, ∃ markup, E.innerHtml n = .ok markup) :
    ∃ resp, TibiaHighscoresImpl E now world category vocationName currentPage html
        = .ok (some resp, none)
      ∧ resp.Highscores.HighscorePage.CurrentPage = currentPage := by
  obtain ⟨age, hage⟩ := getHighscoreAge_ok E hE html
  obtain ⟨⟨tp, th⟩, hpages⟩ := getHighscorePages_ok E hE html
  have htp : totalPages E html = tp := by simp only [totalPages, hpages]
  rw [htp] at hpage
  obtain ⟨v, hl⟩ := eachRow_returns E category (highscoreRows E doc) HighscoreVars.zero
    (fun n _ => rowReadable_of_arity E hE category n)
  have hnone : v.insideError = none :=
    eachRow_no_error E category _ _ v (titleUnset_zero E category) hmarkup hl
  refine ⟨{
      Highscores := {
        World := E.casesTitle world,
        Category := E.categoryString category,
        Vocation := vocationName,
        HighscoreAge := age,
        HighscoreList := v.HighscoreData,
        HighscorePage := {
          CurrentPage := currentPage,
          TotalPages := tp,
          TotalHighscores := th } },
      Information := {
        APIDetails := E.TibiaDataAPIDetails,
        Timestamp := E.TibiaDataDatetime now "",
        Status := { HTTPCode := StatusOK } } }, ?_, rfl⟩
  rw [TibiaHighscoresImpl_loaded E now world category vocationName currentPage html doc
    age tp th hload hage hpages]
  have hp : ¬ currentPage > tp := by omega
  simp only [hp, if_false, hl, hnone]

theorem totalPages_nonneg (E : Env) (html : String) : 0 ≤ totalPages E html := by
  unfold totalPages
  cases h : getHighscorePages E html with
  | error a => exact le_refl _
  | ok p =>
    obtain ⟨tp, th⟩ := p
    exact getHighscorePages_nonneg E html tp th h

/-- C15: every response `TibiaHighscoresImpl` returns echoes the requested page
in CurrentPage and the vocation filter in Vocation, has TotalPages >= 0 and
CurrentPage <= TotalPages; the requested page is not checked for being
positive: a page of zero or below is never rejected as too big, and it is
accepted and echoed back whenever the fragment loads and the markup of its
rows can be retrieved. -/
theorem TibiaHighscoresImpl_page_invariants (E : Env) (now : Nat) (world : String)
    (category : HighscoreCategory) (vocationName : String) (currentPage : Int)
    (html : String) :
    (∀ resp e, TibiaHighscoresImpl E now world category vocationName currentPage html
          = .ok (some resp, e) →
        resp.Highscores.HighscorePage.CurrentPage = currentPage
          ∧ resp.Highscores.Vocation = vocationName
          ∧ 0 ≤ resp.Highscores.HighscorePage.TotalPages
          ∧ resp.Highscores.HighscorePage.CurrentPage
              ≤ resp.Highscores.HighscorePage.TotalPages)
    ∧ (currentPage ≤ 0 →
        TibiaHighscoresImpl E now world category vocationName currentPage html
          ≠ .ok (none, some GoError.ErrorHighscorePageTooBig))
    ∧ (SubmatchArity E → currentPage ≤ 0 → ∀ doc : E.Doc,
        E.NewDocumentFromReader html = .ok doc →
        (∀ n ∈ highscoreRows E doc, ∃ markup, E.innerHtml n = .ok markup) →
        ∃ resp, TibiaHighscoresImpl E now world category vocationName currentPage html
            = .ok (some resp, none)
          ∧ resp.Highscores.HighscorePage.CurrentPage = currentPage) := by
  refine ⟨?_, ?_, ?_⟩
  · intro resp e h
    obtain ⟨_, doc, age, tp, th, v, _, _, hpages, hle, _, _, hresp⟩ :=
      TibiaHighscoresImpl_response E now world category vocationName currentPage html resp e h
    subst hresp
    exact ⟨rfl, rfl, getHighscorePages_nonneg E html tp th hpages, hle⟩
  · intro hle h
    cases hload : E.NewDocumentFromReader html with
    | error err => simp [TibiaHighscoresImpl, hload] at h
    | ok doc =>
      cases hage : getHighscoreAge E html with
      | error a => simp [TibiaHighscoresImpl, hload, hage] at h
      | ok age =>
        cases hpages : getHighscorePages E html with
        | error a => simp [TibiaHighscoresImpl, hload, hage, hpages] at h
        | ok p =>
          obtain ⟨tp, th⟩ := p
          have htp := getHighscorePages_nonneg E html tp th hpages
          rw [TibiaHighscoresImpl_loaded E now world category vocationName currentPage html doc
            age tp th hload hage hpages] at h
          have hp : ¬ currentPage > tp := by omega
          simp only [hp, if_false] at h
          cases hl : EachWithBreak (highscoreRow E category) (highscoreRows E doc)
              HighscoreVars.zero with
          | error a => rw [hl] at h; simp at h
          | ok v =>
            rw [hl] at h
            rcases eachRow_spec E category _ _ v (titleUnset_zero E category) rfl hl with
              ⟨h1, _⟩ | ⟨⟨msg, h4⟩, _⟩
            · simp [h1] at h
            · simp [h4] at h
  · intro hE hle doc hload hmarkup
    exact TibiaHighscoresImpl_in_range E hE now world category vocationName currentPage html
      doc hload (le_trans hle (totalPages_nonneg E html)) hmarkup

/-- C15 on the experience sample page, page -1 requested: the response echoes
the page -1 of 2. -/
theorem TibiaHighscoresImpl_page_invariants_witness :
    (∃ resp, TibiaHighscoresImpl sampleEnv 0 "secura" 6 "all" (-1) experiencePage.source
        = .ok (some resp, none)
      ∧ resp.Highscores.HighscorePage
          = { CurrentPage := -1, TotalPages := 2, TotalHighscores := 1234 }
      ∧ resp.Highscores.Vocation = "all")
    ∧ (((-1 : Int) ≤ 0 →
        TibiaHighscoresImpl sampleEnv 0 "secura" 6 "all" (-1) experiencePage.source
          ≠ .ok (none, some GoError.ErrorHighscorePageTooBig))) :=
  ⟨⟨_, rfl, rfl, rfl⟩,
    (TibiaHighscoresImpl_page_invariants sampleEnv 0 "secura" 6 "all" (-1)
      experiencePage.source).2.1⟩

end TibiaData
